import Mathlib

set_option autoImplicit false
set_option linter.unusedVariables false

/-!
Verification development for the extendible hash table
(`src/container/hash/extendible_hash_table.cpp`) and the limit executor
(`src/execution/limit_executor.cpp`) of the bustub-labs repository.

The table operations (`GetValue`, `Insert`, `SplitInsert`, `Remove`, `Merge`,
the constructor) are translated directly from the source file.  The bucket
page, the directory page and the buffer pool manager are not part of the
given sources; their operations are modelled from the specification
(sections 4.2, 4.3 and 6 of the spec), as noted on each definition.

Machine integers: directory indices and masks are `uint32_t` in the source;
they are modelled as `Nat`, with an explicit `% 2 ^ 32` wherever the source
performs unsigned arithmetic that can wrap (the down-loop initialisation
`bkt_id - diff`, and additions of indices).  Page ids are modelled as `Nat`
(the buffer pool hands them out consecutively).  `assert(c)` in the source
aborts the process when `c` fails; operations are therefore modelled as
`Option`-valued, `none` meaning the operation did not complete.
-/

namespace Bustub

def U32 : Nat := 2 ^ 32

/-- Unsigned 32-bit subtraction `a - b` as the source computes it on
`uint32_t` values (wrap-around modulo `2 ^ 32`). -/
def u32sub (a b : Nat) : Nat := (a % U32 + (U32 - b % U32)) % U32

/-! ### Bucket page (modelled from the spec, section 4.2) -/

/-- One slot of a bucket page: the `occupied` bit, the `readable` bit and the
stored key/value pair (spec section 3, entity "Bucket"). -/
structure Slot where
  occupied : Bool
  readable : Bool
  key : Nat
  val : Nat
deriving Repr, DecidableEq

abbrev Bucket := List Slot

/-- Modelled from the spec: `get_value(key, cmp, out)` scans readable slots and
appends each value whose key compares equal; the bucket page implementation is
not among the given sources. -/
def bucketGetValue (b : Bucket) (k : Nat) : List Nat :=
  (b.filter (fun s => s.readable && s.key == k)).map (fun s => s.val)

/-- Whether the exact (key, value) pair is present in a readable slot. -/
def bucketHasPair (b : Bucket) (k v : Nat) : Bool :=
  b.any (fun s => s.readable && s.key == k && s.val == v)

/-- Place a pair in the first slot whose readable bit is false, setting its
occupied and readable bits; `none` when every slot is readable. -/
def placeFirstFree (b : Bucket) (k v : Nat) : Option Bucket :=
  match b with
  | [] => none
  | s :: rest =>
    if s.readable then (placeFirstFree rest k v).map (fun r => s :: r)
    else some ({ occupied := true, readable := true, key := k, val := v } :: rest)

/-- Modelled from the spec: bucket `insert` rejects an exact duplicate pair,
otherwise places the pair in the first non-readable slot (reusing tombstones),
failing iff no such slot exists; the bucket page implementation is not among
the given sources. -/
def bucketInsert (b : Bucket) (k v : Nat) : Bucket × Bool :=
  if bucketHasPair b k v then (b, false)
  else
    match placeFirstFree b k v with
    | some b2 => (b2, true)
    | none => (b, false)

/-- Clear the readable bit of the first readable slot holding the pair. -/
def clearFirstMatch (b : Bucket) (k v : Nat) : Option Bucket :=
  match b with
  | [] => none
  | s :: rest =>
    if s.readable && s.key == k && s.val == v then
      some ({ s with readable := false } :: rest)
    else (clearFirstMatch rest k v).map (fun r => s :: r)

/-- Modelled from the spec: bucket `remove` clears the readable bit of the
first matching pair (a tombstone: occupied stays set), returning whether a
match was cleared. -/
def bucketRemove (b : Bucket) (k v : Nat) : Bucket × Bool :=
  match clearFirstMatch b k v with
  | some b2 => (b2, true)
  | none => (b, false)

/-- Modelled from the spec: `is_full()` holds iff every slot is readable. -/
def bucketIsFull (b : Bucket) : Bool := b.all (fun s => s.readable)

/-- Modelled from the spec: `is_empty()` holds iff no slot is readable. -/
def bucketIsEmpty (b : Bucket) : Bool := b.all (fun s => !s.readable)

/-- Modelled from the spec: `get_kv_pairs()` is the ordered sequence of live
(readable) pairs. -/
def getKVPairs (b : Bucket) : List (Nat × Nat) :=
  (b.filter (fun s => s.readable)).map (fun s => (s.key, s.val))

/-- Modelled from the spec: `reset()` clears all occupied and readable bits. -/
def bucketReset (b : Bucket) : Bucket :=
  b.map (fun s => { s with occupied := false, readable := false })

/-- A freshly allocated (zeroed) bucket page with `bas` slots
(`BUCKET_ARRAY_SIZE` is a page-layout constant; it is a parameter here). -/
def emptyBucket (bas : Nat) : Bucket :=
  List.replicate bas { occupied := false, readable := false, key := 0, val := 0 }

/-! ### Directory page (modelled from the spec, sections 4.1, 4.3 and 6) -/

/-- Pointwise update of a function-backed array. -/
def upd {α : Type} (f : Nat → α) (i : Nat) (a : α) : Nat → α :=
  fun j => if j = i then a else f j

/-- The directory page: global depth plus the `bucket_page_ids` and
`local_depths` arrays (spec section 6 layout), modelled as total functions on
slot indices. -/
@[ext]
structure DirPage where
  pageId : Nat
  globalDepth : Nat
  ids : Nat → Nat
  lds : Nat → Nat

def dirSize (d : DirPage) : Nat := 2 ^ d.globalDepth

/-- Modelled from the spec: `global_depth_mask = (1 << global_depth) - 1`. -/
def globalDepthMask (d : DirPage) : Nat := 2 ^ d.globalDepth - 1

/-- Modelled from the spec: `local_depth_mask(i) = (1 << local_depths[i]) - 1`. -/
def localDepthMask (d : DirPage) (i : Nat) : Nat := 2 ^ d.lds i - 1

/-- A directory whose every slot has local depth `m`: used only to phrase the
rehash hypothesis of the split effect lemma independent of the intermediate
directory (`rehashPairs` reads the directory only through
`localDepthMask _ imgId`). -/
def mkLdDir (m : Nat) : DirPage :=
  { pageId := 0, globalDepth := 0, ids := fun _ => 0, lds := fun _ => m }

/-- Modelled from the spec: `split_image_index(i) = i XOR (1 << (local_depths[i] - 1))`. -/
def getSplitImageIndex (d : DirPage) (i : Nat) : Nat :=
  i ^^^ 2 ^ (d.lds i - 1)

def setBucketPageId (d : DirPage) (i : Nat) (p : Nat) : DirPage :=
  { d with ids := upd d.ids i p }

def setLocalDepth (d : DirPage) (i v : Nat) : DirPage :=
  { d with lds := upd d.lds i v }

def incrLocalDepth (d : DirPage) (i : Nat) : DirPage :=
  setLocalDepth d i (d.lds i + 1)

def decrLocalDepth (d : DirPage) (i : Nat) : DirPage :=
  setLocalDepth d i (d.lds i - 1)

/-- Modelled from the spec (section 3): `global_depth ∈ [0, MAX_DEPTH]`,
with `MAX_DEPTH = 9` so the directory arrays hold `DIRECTORY_ARRAY_SIZE = 512`
entries. -/
def MAX_DEPTH : Nat := 9

/-- Modelled from the spec (section 4.4.3 step 2): incrementing the global
depth doubles the directory by duplicating all existing entries, so that slot
`i` and slot `i + 2 ^ old_global_depth` agree afterwards. -/
def incrGlobalDepthCore (d : DirPage) : DirPage :=
  { d with
    globalDepth := d.globalDepth + 1
    ids := fun j => if dirSize d ≤ j ∧ j < 2 * dirSize d then d.ids (j - dirSize d) else d.ids j
    lds := fun j => if dirSize d ≤ j ∧ j < 2 * dirSize d then d.lds (j - dirSize d) else d.lds j }

/-- Modelled from the spec: the directory page implementation is not among the
given sources; the spec constrains `global_depth` to `[0, MAX_DEPTH]`
(section 3) and has the split recursion end at `MAX_DEPTH` "with a failure
signal" (section 4.4.3 step 7), so growing past `MAX_DEPTH` fails like any
other failed assertion. -/
def incrGlobalDepth (d : DirPage) : Option DirPage :=
  if d.globalDepth < MAX_DEPTH then some (incrGlobalDepthCore d) else none

def decrGlobalDepth (d : DirPage) : DirPage :=
  { d with globalDepth := d.globalDepth - 1 }

/-- Modelled from the spec: `can_shrink()` holds iff the global depth is
positive and every slot's local depth is strictly below it. -/
def canShrink (d : DirPage) : Bool :=
  0 < d.globalDepth && (List.range (dirSize d)).all (fun i => d.lds i < d.globalDepth)

/-! ### Buffer pool and whole-table state -/

/-- Buffer pool events recorded by each table operation, in source order. -/
inductive Ev where
  | newp : Nat → Ev
  | fetch : Nat → Ev
  | unpin : Nat → Bool → Ev
  | del : Nat → Ev
deriving Repr, DecidableEq

/-- The whole system state: the table's directory page, the bucket pages (by
page id), and the buffer pool bookkeeping (next fresh page id, pin counts,
dirty flags, allocation flags), plus the table's hash function and the bucket
capacity.  The buffer pool manager is modelled from the spec (section 6). -/
@[ext]
structure HT where
  hashFn : Nat → Nat
  bas : Nat
  dirPageId : Nat
  dir : DirPage
  pages : Nat → Bucket
  nextPid : Nat
  pins : Nat → Nat
  dirty : Nat → Bool
  alloc : Nat → Bool

/-- `Hash`: downcast of the supplied hash to 32 bits (source lines 52-55). -/
def hashOf (s : HT) (k : Nat) : Nat := s.hashFn k % U32

/-- `KeyToDirectoryIndex` (source lines 57-63). -/
def keyToDirectoryIndex (s : HT) (k : Nat) : Nat :=
  hashOf s k &&& globalDepthMask s.dir

/-- `KeyToPageId` (source lines 65-70). -/
def keyToPageId (s : HT) (k : Nat) : Nat :=
  s.dir.ids (keyToDirectoryIndex s k)

/-- `FetchPage`: pin the page (modelled from the spec, section 6). -/
def pinPage (s : HT) (p : Nat) : HT :=
  { s with pins := upd s.pins p (s.pins p + 1) }

/-- `UnpinPage(p, d)`: fails (returns false, so the surrounding `assert`
aborts) when the pin count is zero; otherwise decrements the pin count and
records dirtiness (modelled from the spec, section 6). -/
def unpinPage (s : HT) (p : Nat) (d : Bool) : Option HT :=
  if s.pins p = 0 then none
  else
    some { s with
      pins := upd s.pins p (s.pins p - 1)
      dirty := upd s.dirty p (s.dirty p || d) }

/-- `NewPage`: allocate, zero and pin a fresh page (modelled from the spec,
section 6). -/
def newPage (s : HT) : Nat × HT :=
  (s.nextPid,
   { s with
     nextPid := s.nextPid + 1
     pages := upd s.pages s.nextPid (emptyBucket s.bas)
     pins := upd s.pins s.nextPid (s.pins s.nextPid + 1)
     alloc := upd s.alloc s.nextPid true })

/-- `DeletePage`: succeeds iff the page is allocated and unpinned (modelled
from the spec, section 6). -/
def deletePage (s : HT) (p : Nat) : Option HT :=
  if s.pins p = 0 ∧ s.alloc p then some { s with alloc := upd s.alloc p false }
  else none

/-- The pristine pool state a table is constructed over: nothing allocated,
nothing pinned, all pages zeroed. -/
def initialHT (hashF : Nat → Nat) (bas : Nat) : HT :=
  { hashFn := hashF
    bas := bas
    dirPageId := 0
    dir := { pageId := 0, globalDepth := 0, ids := fun _ => 0, lds := fun _ => 0 }
    pages := fun _ => emptyBucket bas
    nextPid := 0
    pins := fun _ => 0
    dirty := fun _ => false
    alloc := fun _ => false }

/-- The constructor (source lines 25-40): `NewPage` for the directory,
`SetPageId`, `NewPage` for the first bucket, install it at slot 0 with local
depth 0, then unpin the directory dirty and the bucket clean. -/
def newTable (hashF : Nat → Nat) (bas : Nat) : Option (HT × List Ev) :=
  let s0 := initialHT hashF bas
  let r1 := newPage s0
  let dpid := r1.1
  let s1 := { r1.2 with dirPageId := dpid, dir := { r1.2.dir with pageId := dpid } }
  let r2 := newPage s1
  let bpid := r2.1
  let s2 := { r2.2 with dir := setLocalDepth (setBucketPageId r2.2.dir 0 bpid) 0 0 }
  match unpinPage s2 dpid true with
  | none => none
  | some s3 =>
    match unpinPage s3 bpid false with
    | none => none
    | some s4 =>
      some (s4, [Ev.newp dpid, Ev.newp bpid, Ev.unpin dpid true, Ev.unpin bpid false])

/-! ### GetValue (source lines 89-102) -/

def getValueOp (s : HT) (k : Nat) : Option ((Bool × List Nat) × HT × List Ev) :=
  let s1 := pinPage s s.dirPageId
  let bpid := keyToPageId s1 k
  let s2 := pinPage s1 bpid
  let vals := bucketGetValue (s2.pages bpid) k
  match unpinPage s2 s2.dirPageId false with
  | none => none
  | some s3 =>
    match unpinPage s3 bpid false with
    | none => none
    | some s4 =>
      some ((!vals.isEmpty, vals), s4,
        [Ev.fetch s.dirPageId, Ev.fetch bpid, Ev.unpin s.dirPageId false, Ev.unpin bpid false])

/-! ### The directory rewrite loops of SplitInsert and Merge
The source iterates `for (uint32_t i = bkt_id - diff; i >= diff; i -= diff)`
and `for (uint32_t i = bkt_id + diff; i < size; i += diff)` with
`diff = 1 << local_depth`; each body does `SetBucketPageId(i, pid)` then
`SetLocalDepth(i, local_depth)` (source lines 173-191 and 262-272).  The
initialisation `bkt_id - diff` is unsigned and wraps modulo `2 ^ 32`. -/

def setSlot (d : DirPage) (i : Nat) (p ld : Nat) : DirPage :=
  setLocalDepth (setBucketPageId d i p) i ld

def redirectDown (d : DirPage) (i ld : Nat) (p : Nat) : DirPage :=
  if 2 ^ ld ≤ i then redirectDown (setSlot d i p ld) (i - 2 ^ ld) ld p else d
termination_by i
decreasing_by
  have h1 : 0 < 2 ^ ld := Nat.pos_pow_of_pos ld (by norm_num)
  omega

def redirectUp (d : DirPage) (i ld : Nat) (p : Nat) (size : Nat) : DirPage :=
  if i < size then redirectUp (setSlot d i p ld) (i + 2 ^ ld) ld p size else d
termination_by size - i
decreasing_by
  have h1 : 0 < 2 ^ ld := Nat.pos_pow_of_pos ld (by norm_num)
  omega

/-- The four redirect loops of `SplitInsert` (source lines 173-191): for each
of `bkt_id` (with `bkt_pid`) and `img_id` (with `img_pid`), a down-loop from
`i - diff` (computed on `uint32_t`, so it wraps) and an up-loop from
`(i + diff) % 2^32`, both stepping by `diff = 2 ^ ld`. -/
def redirectLoops (d : DirPage) (bktId imgId ld bktPid imgPid : Nat) : DirPage :=
  let dA := redirectDown d (u32sub bktId (2 ^ ld)) ld bktPid
  let dB := redirectUp dA ((bktId + 2 ^ ld) % U32) ld bktPid (dirSize dA)
  let dC := redirectDown dB (u32sub imgId (2 ^ ld)) ld imgPid
  redirectUp dC ((imgId + 2 ^ ld) % U32) ld imgPid (dirSize dC)

/-- The indices written by the down-loop, in iteration order. -/
def downLoopWrites (i ld : Nat) : List Nat :=
  if 2 ^ ld ≤ i then i :: downLoopWrites (i - 2 ^ ld) ld else []
termination_by i
decreasing_by
  have h1 : 0 < 2 ^ ld := Nat.pos_pow_of_pos ld (by norm_num)
  omega

/-- The indices written by the up-loop, in iteration order. -/
def upLoopWrites (i ld size : Nat) : List Nat :=
  if i < size then i :: upLoopWrites (i + 2 ^ ld) ld size else []
termination_by size - i
decreasing_by
  have h1 : 0 < 2 ^ ld := Nat.pos_pow_of_pos ld (by norm_num)
  omega

/-- All directory slots written by the four redirection loops of
`SplitInsert` (source lines 173-191), given the (new) local depth, the
directory size, and the two class representatives `bkt_id` and `img_id`. -/
def splitRedirectWrites (bktId imgId ld size : Nat) : List Nat :=
  downLoopWrites (u32sub bktId (2 ^ ld)) ld
    ++ upLoopWrites ((bktId + 2 ^ ld) % U32) ld size
    ++ downLoopWrites (u32sub imgId (2 ^ ld)) ld
    ++ upLoopWrites ((imgId + 2 ^ ld) % U32) ld size

/-! ### Insert and SplitInsert (source lines 107-198) -/

/-- The rehash loop of `SplitInsert` (source lines 159-171): for each live
pair of the old bucket, the target is `Hash(key) & GetLocalDepthMask(img_id)`;
the source asserts the target is `img_id` or `bkt_id` and asserts the
re-insertion succeeds. -/
def rehashPairs (d : DirPage) (hashF : Nat → Nat) (imgId bktId : Nat) :
    Bucket → Bucket → List (Nat × Nat) → Option (Bucket × Bucket)
  | bktB, imgB, [] => some (bktB, imgB)
  | bktB, imgB, (k, v) :: rest =>
    let tgt := (hashF k % U32) &&& localDepthMask d imgId
    if tgt = imgId ∨ tgt = bktId then
      if tgt = imgId then
        match bucketInsert imgB k v with
        | (b2, true) => rehashPairs d hashF imgId bktId bktB b2 rest
        | (_, false) => none
      else
        match bucketInsert bktB k v with
        | (b2, true) => rehashPairs d hashF imgId bktId b2 imgB rest
        | (_, false) => none
    else none

mutual

/-- `Insert` (source lines 107-130).  The `fuel` argument bounds the
`Insert`/`SplitInsert` recursion, which the source leaves unbounded;
`none` also covers a failed `assert`. -/
def insertF : Nat → HT → Nat → Nat → Option (Bool × HT × List Ev)
  | 0, _, _, _ => none
  | fuel + 1, s, k, v =>
    let s1 := pinPage s s.dirPageId
    let bpid := keyToPageId s1 k
    let s2 := pinPage s1 bpid
    if bucketIsFull (s2.pages bpid) then
      match unpinPage s2 s2.dirPageId false with
      | none => none
      | some s3 =>
        match unpinPage s3 bpid false with
        | none => none
        | some s4 =>
          match splitInsertF fuel s4 k v with
          | none => none
          | some (r, s5, tr) =>
            some (r, s5,
              [Ev.fetch s.dirPageId, Ev.fetch bpid,
               Ev.unpin s.dirPageId false, Ev.unpin bpid false] ++ tr)
    else
      let ins := bucketInsert (s2.pages bpid) k v
      let s3 := { s2 with pages := upd s2.pages bpid ins.1 }
      match unpinPage s3 s3.dirPageId false with
      | none => none
      | some s4 =>
        match unpinPage s4 bpid true with
        | none => none
        | some s5 =>
          some (ins.2, s5,
            [Ev.fetch s.dirPageId, Ev.fetch bpid,
             Ev.unpin s.dirPageId false, Ev.unpin bpid true])

/-- `SplitInsert` (source lines 132-198).  Every source `assert` is modelled
as a guard returning `none` on failure. -/
def splitInsertF : Nat → HT → Nat → Nat → Option (Bool × HT × List Ev)
  | 0, _, _, _ => none
  | fuel + 1, s, k, v =>
    let s1 := pinPage s s.dirPageId
    let bktId := keyToDirectoryIndex s1 k
    let bktPid := keyToPageId s1 k
    let s2 := pinPage s1 bktPid
    if bucketIsFull (s2.pages bktPid) then
      let d1 := incrLocalDepth s2.dir bktId
      match (if d1.globalDepth < d1.lds bktId then incrGlobalDepth d1 else some d1) with
      | none => none
      | some d2 =>
      let imgId := getSplitImageIndex d2 bktId
      if d2.ids imgId = bktPid then
        let s3 := { s2 with dir := d2 }
        let r4 := newPage s3
        let imgPid := r4.1
        let s4 := r4.2
        if imgPid ≠ bktPid then
          let d3 := setBucketPageId s4.dir imgId imgPid
          if d3.lds bktId = d3.lds imgId then
            let prs := getKVPairs (s4.pages bktPid)
            match rehashPairs d3 s4.hashFn imgId bktId
                (bucketReset (s4.pages bktPid)) (s4.pages imgPid) prs with
            | none => none
            | some (bktB, imgB) =>
              let s5 := { s4 with
                dir := d3
                pages := upd (upd s4.pages bktPid bktB) imgPid imgB }
              let ld := s5.dir.lds imgId
              let s6 := { s5 with dir := redirectLoops s5.dir bktId imgId ld bktPid imgPid }
              match unpinPage s6 s6.dirPageId true with
              | none => none
              | some s7 =>
                match unpinPage s7 bktPid true with
                | none => none
                | some s8 =>
                  match unpinPage s8 imgPid true with
                  | none => none
                  | some s9 =>
                    match insertF fuel s9 k v with
                    | none => none
                    | some (r, s10, tr) =>
                      some (r, s10,
                        [Ev.fetch s.dirPageId, Ev.fetch bktPid, Ev.newp imgPid,
                         Ev.unpin s.dirPageId true, Ev.unpin bktPid true,
                         Ev.unpin imgPid true] ++ tr)
          else none
        else none
      else none
    else none

end

/-! ### Merge (source lines 228-280) and Remove (source lines 203-223) -/

/-- The `while (CanShrink()) DecrGlobalDepth()` loop (source lines 274-276). -/
def shrinkLoop (d : DirPage) : DirPage :=
  if canShrink d then shrinkLoop (decrGlobalDepth d) else d
termination_by d.globalDepth
decreasing_by
  rename_i h
  simp only [canShrink, Bool.and_eq_true, decide_eq_true_eq] at h
  simp only [decrGlobalDepth]
  omega

def mergeOp (s : HT) (k v : Nat) : Option (HT × List Ev) :=
  let s1 := pinPage s s.dirPageId
  let bktPid := keyToPageId s1 k
  let s2 := pinPage s1 bktPid
  let bktId := keyToDirectoryIndex s2 k
  let imgId := getSplitImageIndex s2.dir bktId
  if ¬ bucketIsEmpty (s2.pages bktPid) = true ∨ s2.dir.lds bktId = 0
      ∨ s2.dir.lds bktId ≠ s2.dir.lds imgId then
    match unpinPage s2 s2.dirPageId false with
    | none => none
    | some s3 =>
      match unpinPage s3 bktPid false with
      | none => none
      | some s4 =>
        some (s4, [Ev.fetch s.dirPageId, Ev.fetch bktPid,
                   Ev.unpin s.dirPageId false, Ev.unpin bktPid false])
  else
    match unpinPage s2 bktPid false with
    | none => none
    | some s3 =>
      match deletePage s3 bktPid with
      | none => none
      | some s4 =>
        let imgPid := s4.dir.ids imgId
        let d1 := decrLocalDepth (decrLocalDepth (setBucketPageId s4.dir bktId imgPid) bktId) imgId
        if d1.ids bktId = d1.ids imgId ∧ d1.lds bktId = d1.lds imgId then
          let ld := d1.lds imgId
          let dA := redirectDown d1 (u32sub bktId (2 ^ ld)) ld imgPid
          let dB := redirectUp dA ((bktId + 2 ^ ld) % U32) ld imgPid (dirSize dA)
          let dC := shrinkLoop dB
          let s5 := { s4 with dir := dC }
          match unpinPage s5 s5.dirPageId true with
          | none => none
          | some s6 =>
            some (s6, [Ev.fetch s.dirPageId, Ev.fetch bktPid, Ev.unpin bktPid false,
                       Ev.del bktPid, Ev.unpin s.dirPageId true])
        else none

def removeOp (s : HT) (k v : Nat) : Option (Bool × HT × List Ev) :=
  let s1 := pinPage s s.dirPageId
  let bpid := keyToPageId s1 k
  let s2 := pinPage s1 bpid
  let rem := bucketRemove (s2.pages bpid) k v
  let s3 := { s2 with pages := upd s2.pages bpid rem.1 }
  match unpinPage s3 s3.dirPageId false with
  | none => none
  | some s4 =>
    match unpinPage s4 bpid true with
    | none => none
    | some s5 =>
      if rem.2 && bucketIsEmpty rem.1 then
        match mergeOp s5 k v with
        | none => none
        | some (s6, tr) =>
          some (rem.2, s6,
            [Ev.fetch s.dirPageId, Ev.fetch bpid,
             Ev.unpin s.dirPageId false, Ev.unpin bpid true] ++ tr)
      else
        some (rem.2, s5,
          [Ev.fetch s.dirPageId, Ev.fetch bpid,
           Ev.unpin s.dirPageId false, Ev.unpin bpid true])

/-! ### Operation sequences -/

inductive Op where
  | ins : Nat → Nat → Op
  | rem : Nat → Nat → Op
  | get : Nat → Op
deriving Repr, DecidableEq

def stepOp (fuel : Nat) (s : HT) : Op → Option HT
  | Op.ins k v => (insertF fuel s k v).map (fun r => r.2.1)
  | Op.rem k v => (removeOp s k v).map (fun r => r.2.1)
  | Op.get k => (getValueOp s k).map (fun r => r.2.1)

def runFrom (fuel : Nat) : HT → List Op → Option HT
  | s, [] => some s
  | s, op :: rest =>
    match stepOp fuel s op with
    | none => none
    | some s2 => runFrom fuel s2 rest

/-- The state the constructor run (`newTable`) produces, written out: directory
page 0 at global depth 0, bucket page 1 installed at slot 0 with local depth 0,
both pages unpinned, the directory dirty and the bucket clean. -/
def table0 (hashF : Nat → Nat) (bas : Nat) : HT :=
  { hashFn := hashF
    bas := bas
    dirPageId := 0
    dir := { pageId := 0, globalDepth := 0, ids := fun j => if j = 0 then 1 else 0,
             lds := fun _ => 0 }
    pages := fun _ => emptyBucket bas
    nextPid := 2
    pins := fun _ => 0
    dirty := fun j => if j = 0 then true else false
    alloc := fun j => if j = 0 ∨ j = 1 then true else false }

/-- Run a list of operations against a freshly constructed table. -/
def runOps (fuel : Nat) (hashF : Nat → Nat) (bas : Nat) (ops : List Op) : Option HT :=
  match newTable hashF bas with
  | none => none
  | some (s, _) => runFrom fuel s ops

/-! ### Limit executor (src/execution/limit_executor.cpp) -/

/-- The limit executor's mutable state: the plan's limit, the call counter
`cnt_`, and the position of the child executor (how many times the child's
`Next` has been invoked; the child is modelled as the stream
`child : Nat → Bool` of its successive `Next` results). -/
structure LimitState where
  limit : Nat
  cnt : Nat
  childPos : Nat
deriving Repr, DecidableEq

/-- `LimitExecutor::Init` (source lines 21-28): store the limit, zero the
counter, init the child; `UNREACHABLE` (process abort) when the limit is 0. -/
def limitExecInit (l : Nat) : Option LimitState :=
  if l = 0 then none else some { limit := l, cnt := 0, childPos := 0 }

/-- `LimitExecutor::Next` (source line 30):
`return cnt_++ < limit_ && child_executor_->Next(tuple, rid);` — the counter
is incremented on every call; the child is invoked only when the old counter
is below the limit. -/
def limitExecNext (child : Nat → Bool) (s : LimitState) : Bool × LimitState :=
  let c := s.cnt
  if c < s.limit then
    (child s.childPos, { s with cnt := c + 1, childPos := s.childPos + 1 })
  else
    (false, { s with cnt := c + 1 })

/-- State after `n` calls to `Next`. -/
def limitIter (child : Nat → Bool) (s : LimitState) : Nat → LimitState
  | 0 => s
  | n + 1 => (limitExecNext child (limitIter child s n)).2


/-! ## Shared predicates and helper lemmas -/

/-- The directory-consistency invariant of the spec (P1): every slot's local
depth is bounded by the global depth, and all slots congruent modulo
`2 ^ local_depth` share the bucket page id and the local depth. -/
def dirConsistent (s : HT) : Prop :=
  ∀ i, i < dirSize s.dir →
    s.dir.lds i ≤ s.dir.globalDepth ∧
      ∀ j, j < dirSize s.dir → j % 2 ^ s.dir.lds i = i % 2 ^ s.dir.lds i →
        s.dir.ids j = s.dir.ids i ∧ s.dir.lds j = s.dir.lds i

/-- Number of free (non-readable) slots of a bucket. -/
def freeCount (b : Bucket) : Nat := (b.filter (fun sl => !sl.readable)).length

/-- What a lookup on the routed bucket reports for the exact pair. -/
def tableHas (s : HT) (k v : Nat) : Bool :=
  bucketHasPair (s.pages (keyToPageId s k)) k v

/-- The pairs a sequence of operations leaves live, as a boolean table:
an insert marks the pair live, a remove marks it dead (an insert that the
table rejects is an exact duplicate, and a remove that fails matches nothing,
so in both cases the mark is already correct). -/
def liveOf : List Op → (Nat → Nat → Bool) → (Nat → Nat → Bool)
  | [], f => f
  | Op.ins k v :: rest, f =>
    liveOf rest (fun k2 v2 => if k2 = k ∧ v2 = v then true else f k2 v2)
  | Op.rem k v :: rest, f =>
    liveOf rest (fun k2 v2 => if k2 = k ∧ v2 = v then false else f k2 v2)
  | Op.get _ :: rest, f => liveOf rest f

/-- The directory shapes reachable by this implementation: a distinguished
deepest slot `p` (the last split chain), and every other slot's local depth
is one more than the position of its lowest bit of disagreement with `p`. -/
def spinePath (d : DirPage) (p : Nat) : Prop :=
  p < dirSize d ∧ d.lds p = d.globalDepth ∧
  ∀ j, j < dirSize d → ∀ t, j % 2 ^ t = p % 2 ^ t → j % 2 ^ (t + 1) ≠ p % 2 ^ (t + 1) →
    d.lds j = t + 1

/-- The state invariant maintained by every completed table operation. -/
structure Inv (s : HT) : Prop where
  dirPid : s.dirPageId = 0
  pins0 : ∀ q, s.pins q = 0
  gdMD : s.dir.globalDepth ≤ MAX_DEPTH
  spine : ∃ p, spinePath s.dir p
  classEq : ∀ j j', j < dirSize s.dir → j' < dirSize s.dir →
    j' % 2 ^ s.dir.lds j = j % 2 ^ s.dir.lds j →
    s.dir.ids j' = s.dir.ids j
  pageInj : ∀ j j', j < dirSize s.dir → j' < dirSize s.dir →
    s.dir.ids j' = s.dir.ids j → j' % 2 ^ s.dir.lds j = j % 2 ^ s.dir.lds j
  pidPos : ∀ j, j < dirSize s.dir → 0 < s.dir.ids j
  pidLt : ∀ j, j < dirSize s.dir → s.dir.ids j < s.nextPid
  allocRt : ∀ j, j < dirSize s.dir → s.alloc (s.dir.ids j) = true
  sized : ∀ j, j < dirSize s.dir → (s.pages (s.dir.ids j)).length = s.bas
  content : ∀ j, j < dirSize s.dir → ∀ pr ∈ getKVPairs (s.pages (s.dir.ids j)),
    hashOf s pr.1 % 2 ^ s.dir.lds j = j % 2 ^ s.dir.lds j
  hasNodup : ∀ j, j < dirSize s.dir → (getKVPairs (s.pages (s.dir.ids j))).Nodup

theorem upd_same {α : Type} (f : Nat → α) (i : Nat) : upd f i (f i) = f := by
  funext j
  simp only [upd]
  split <;> simp_all

theorem upd_self {α : Type} (f : Nat → α) (i : Nat) (a : α) : upd f i a i = a := by
  simp [upd]

theorem upd_other {α : Type} (f : Nat → α) (i j : Nat) (a : α) (h : j ≠ i) :
    upd f i a j = f j := by
  simp [upd, h]

/-! ## C10: the limit executor's budget -/

theorem limitIter_closed (child : Nat → Bool) (L : Nat) (n : Nat) :
    limitIter child { limit := L, cnt := 0, childPos := 0 } n
      = { limit := L, cnt := n, childPos := min n L } := by
  induction n with
  | zero => simp [limitIter]
  | succ n ih =>
    simp only [limitIter, ih, limitExecNext]
    by_cases h : n < L
    · simp only [if_pos h]
      have h1 : min n L = n := by omega
      have h2 : min (n + 1) L = n + 1 := by omega
      simp [h1, h2]
    · simp only [if_neg h]
      have h1 : min n L = L := by omega
      have h2 : min (n + 1) L = L := by omega
      simp [h1, h2]

/-- C10: after `Init` with limit `L > 0`, the `n`-th call to `Next` returns
true exactly when `n < L` and the child produces a tuple; the counter is
incremented on every call; once `L` calls have been made, every later call
returns false without invoking the child (the child's position stays put). -/
theorem c10_limit_executor_budget (L n : Nat) (child : Nat → Bool) (s0 : LimitState)
    (h0 : limitExecInit L = some s0) :
    (limitIter child s0 n).cnt = n ∧
    (limitIter child s0 n).childPos = min n L ∧
    (limitExecNext child (limitIter child s0 n)).1
      = (decide (n < L) && child (min n L)) ∧
    (L ≤ n →
      (limitExecNext child (limitIter child s0 n)).1 = false ∧
      (limitExecNext child (limitIter child s0 n)).2.childPos
        = (limitIter child s0 n).childPos) := by
  have hL : L ≠ 0 := by
    intro h
    simp [limitExecInit, h] at h0
  have hs0 : s0 = { limit := L, cnt := 0, childPos := 0 } := by
    simp [limitExecInit, hL] at h0
    exact h0.symm
  subst hs0
  rw [limitIter_closed]
  refine ⟨rfl, rfl, ?_, ?_⟩
  · by_cases h : n < L
    · simp [limitExecNext, h]
    · simp [limitExecNext, h]
  · intro h
    have h2 : ¬ n < L := by omega
    simp [limitExecNext, h2]

theorem c10_limit_executor_budget_witness :
    limitExecInit 2 = some { limit := 2, cnt := 0, childPos := 0 } ∧
    ((limitIter (fun _ => true) { limit := 2, cnt := 0, childPos := 0 } 3).cnt = 3 ∧
     (limitIter (fun _ => true) { limit := 2, cnt := 0, childPos := 0 } 3).childPos = min 3 2 ∧
     (limitExecNext (fun _ => true)
        (limitIter (fun _ => true) { limit := 2, cnt := 0, childPos := 0 } 3)).1
       = (decide (3 < 2) && (fun _ => true) (min 3 2)) ∧
     (2 ≤ 3 →
       (limitExecNext (fun _ => true)
          (limitIter (fun _ => true) { limit := 2, cnt := 0, childPos := 0 } 3)).1 = false ∧
       (limitExecNext (fun _ => true)
          (limitIter (fun _ => true) { limit := 2, cnt := 0, childPos := 0 } 3)).2.childPos
         = (limitIter (fun _ => true) { limit := 2, cnt := 0, childPos := 0 } 3).childPos)) :=
  ⟨by decide,
   c10_limit_executor_budget 2 3 (fun _ => true) { limit := 2, cnt := 0, childPos := 0 } (by decide)⟩


/-! ## Projection lemmas for the state-threading helpers -/

theorem pinPage_dir (s : HT) (p : Nat) : (pinPage s p).dir = s.dir := rfl

theorem pinPage_pages (s : HT) (p : Nat) : (pinPage s p).pages = s.pages := rfl

theorem pinPage_dirPageId (s : HT) (p : Nat) : (pinPage s p).dirPageId = s.dirPageId := rfl

theorem pinPage_pins (s : HT) (p : Nat) :
    (pinPage s p).pins = upd s.pins p (s.pins p + 1) := rfl

theorem pinPage_dirty (s : HT) (p : Nat) : (pinPage s p).dirty = s.dirty := rfl

theorem pinPage_bas (s : HT) (p : Nat) : (pinPage s p).bas = s.bas := rfl

theorem pinPage_hashFn (s : HT) (p : Nat) : (pinPage s p).hashFn = s.hashFn := rfl

theorem pinPage_nextPid (s : HT) (p : Nat) : (pinPage s p).nextPid = s.nextPid := rfl

theorem pinPage_alloc (s : HT) (p : Nat) : (pinPage s p).alloc = s.alloc := rfl

theorem keyToPageId_pinPage (s : HT) (p k : Nat) :
    keyToPageId (pinPage s p) k = keyToPageId s k := rfl

theorem keyToDirectoryIndex_pinPage (s : HT) (p k : Nat) :
    keyToDirectoryIndex (pinPage s p) k = keyToDirectoryIndex s k := rfl

/-! ## C6: merge abort atomicity -/

/-- The abort branch of `Merge` (source lines 236-245): when any abort premise
holds, the state comes back entirely unchanged and both fetched pages are
unpinned clean. -/
theorem mergeOp_abort_effect (s : HT) (k v : Nat)
    (h : ¬ bucketIsEmpty (s.pages (keyToPageId s k)) = true
        ∨ s.dir.lds (keyToDirectoryIndex s k) = 0
        ∨ s.dir.lds (keyToDirectoryIndex s k)
            ≠ s.dir.lds (getSplitImageIndex s.dir (keyToDirectoryIndex s k))) :
    mergeOp s k v = some (s,
      [Ev.fetch s.dirPageId, Ev.fetch (keyToPageId s k),
       Ev.unpin s.dirPageId false, Ev.unpin (keyToPageId s k) false]) := by
  unfold mergeOp
  dsimp only
  simp only [keyToPageId_pinPage, keyToDirectoryIndex_pinPage, pinPage_dir, pinPage_pages,
    pinPage_dirPageId]
  rw [if_pos h]
  unfold unpinPage
  simp only [pinPage_pins, pinPage_dirPageId, pinPage_dirty, pinPage_bas, pinPage_hashFn,
    pinPage_nextPid, pinPage_alloc, pinPage_dir, pinPage_pages]
  rw [if_neg ?hp1]
  case hp1 =>
    rcases eq_or_ne s.dirPageId (keyToPageId s k) with he | hne
    · simp [upd, he]
    · simp [upd, hne, Ne.symm hne]
  dsimp only
  rw [if_neg ?hp2]
  case hp2 =>
    rcases eq_or_ne s.dirPageId (keyToPageId s k) with he | hne
    · simp [upd, he]
    · simp [upd, hne, Ne.symm hne]
  dsimp only
  refine congrArg some (Prod.ext ?_ rfl)
  refine HT.ext rfl rfl rfl rfl rfl rfl ?_ ?_ rfl
  · funext j
    rcases eq_or_ne s.dirPageId (keyToPageId s k) with he | hne <;>
      rcases eq_or_ne j (keyToPageId s k) with hj | hj <;>
        rcases eq_or_ne j s.dirPageId with hd | hd <;>
          simp_all [upd]
  · funext j
    rcases eq_or_ne s.dirPageId (keyToPageId s k) with he | hne <;>
      rcases eq_or_ne j (keyToPageId s k) with hj | hj <;>
        rcases eq_or_ne j s.dirPageId with hd | hd <;>
          simp_all [upd]

/-- C6: if the bucket routed for the key is non-empty, or its local depth is
0, or its local depth differs from its split image's, then `Merge` returns
with the table state entirely unchanged — no page deleted, no slot or depth
modified — and both fetched pages are unpinned clean. -/
theorem c6_merge_abort_atomicity (s : HT) (k v : Nat)
    (h : ¬ bucketIsEmpty (s.pages (keyToPageId s k)) = true
        ∨ s.dir.lds (keyToDirectoryIndex s k) = 0
        ∨ s.dir.lds (keyToDirectoryIndex s k)
            ≠ s.dir.lds (getSplitImageIndex s.dir (keyToDirectoryIndex s k))) :
    mergeOp s k v = some (s,
      [Ev.fetch s.dirPageId, Ev.fetch (keyToPageId s k),
       Ev.unpin s.dirPageId false, Ev.unpin (keyToPageId s k) false]) :=
  mergeOp_abort_effect s k v h

theorem c6_merge_abort_atomicity_witness :
    (¬ bucketIsEmpty ((initialHT (fun x => x) 1).pages
          (keyToPageId (initialHT (fun x => x) 1) 5)) = true
        ∨ (initialHT (fun x => x) 1).dir.lds
            (keyToDirectoryIndex (initialHT (fun x => x) 1) 5) = 0
        ∨ (initialHT (fun x => x) 1).dir.lds
            (keyToDirectoryIndex (initialHT (fun x => x) 1) 5)
          ≠ (initialHT (fun x => x) 1).dir.lds
            (getSplitImageIndex (initialHT (fun x => x) 1).dir
              (keyToDirectoryIndex (initialHT (fun x => x) 1) 5))) ∧
    mergeOp (initialHT (fun x => x) 1) 5 7 = some (initialHT (fun x => x) 1,
      [Ev.fetch (initialHT (fun x => x) 1).dirPageId,
       Ev.fetch (keyToPageId (initialHT (fun x => x) 1) 5),
       Ev.unpin (initialHT (fun x => x) 1).dirPageId false,
       Ev.unpin (keyToPageId (initialHT (fun x => x) 1) 5) false]) :=
  ⟨Or.inr (Or.inl rfl),
   c6_merge_abort_atomicity (initialHT (fun x => x) 1) 5 7 (Or.inr (Or.inl rfl))⟩


/-! ## C9: the constructor's initial state -/

/-- C9: the constructor establishes global depth 0, allocates exactly one
bucket page (page 1, besides the directory page 0) and installs it at
directory slot 0 with local depth 0, unpins the directory dirty and the
bucket clean, leaves no page pinned, and the directory-consistency invariant
holds in the initial state. -/
theorem c9_constructor_initial_state (hashF : Nat → Nat) (bas : Nat) :
    ∃ s : HT,
      newTable hashF bas
        = some (s, [Ev.newp 0, Ev.newp 1, Ev.unpin 0 true, Ev.unpin 1 false]) ∧
      s.dirPageId = 0 ∧
      s.dir.globalDepth = 0 ∧
      s.dir.ids 0 = 1 ∧
      s.dir.lds 0 = 0 ∧
      (∀ p, s.alloc p = true ↔ (p = 0 ∨ p = 1)) ∧
      bucketIsEmpty (s.pages (s.dir.ids 0)) = true ∧
      s.dirty 0 = true ∧
      s.dirty 1 = false ∧
      (∀ p, s.pins p = 0) ∧
      dirConsistent s := by
  refine ⟨_, rfl, rfl, rfl, rfl, rfl, ?_, ?_, rfl, rfl, ?_, ?_⟩
  · intro p
    dsimp only [newPage, initialHT]
    simp only [upd]
    split_ifs <;> simp_all
  · show bucketIsEmpty (emptyBucket bas) = true
    simp only [bucketIsEmpty, emptyBucket, List.all_eq_true]
    intro x hx
    simp_all [List.eq_of_mem_replicate hx]
  · intro p
    dsimp only [newPage, initialHT]
    simp only [upd]
    split_ifs <;> simp_all
  · intro i hi
    dsimp only [newPage, initialHT, setBucketPageId, setLocalDepth, dirSize] at hi ⊢
    have hi0 : i = 0 := by
      simpa [Nat.lt_one_iff] using hi
    subst hi0
    refine ⟨by simp [upd], ?_⟩
    intro j hj _
    have hj0 : j = 0 := by
      simpa [Nat.lt_one_iff] using hj
    subst hj0
    exact ⟨rfl, rfl⟩

/-! ## C7: the dirty flags of Remove -/

/-- C7 (amended): whenever `remove` completes, its own four buffer-pool events
are: fetch directory, fetch bucket, unpin directory clean, and unpin bucket
dirty — the bucket is unpinned with `dirty = true` regardless of whether the
removal succeeded. -/
theorem c7_remove_unpin_flags (s : HT) (k v : Nat) :
    (removeOp s k v).map (fun r => r.2.2.take 4)
      = (removeOp s k v).map (fun _ =>
          [Ev.fetch s.dirPageId, Ev.fetch (keyToPageId s k),
           Ev.unpin s.dirPageId false, Ev.unpin (keyToPageId s k) true]) := by
  unfold removeOp
  dsimp only
  simp only [keyToPageId_pinPage, pinPage_dirPageId]
  rcases unpinPage _ s.dirPageId false with _ | s4
  · rfl
  · dsimp only
    rcases unpinPage s4 (keyToPageId s k) true with _ | s5
    · rfl
    · dsimp only
      split
      · rcases mergeOp s5 k v with _ | ⟨s6, tr⟩
        · rfl
        · simp
      · rfl

/-- C7 (counterexample to the claim as stated): on a freshly constructed
table, `remove(5, 7)` fails (`success = false`), yet the bucket page is
unpinned with `dirty = true`, not clean. -/
theorem c7_remove_dirty_iff_success_false :
    ((newTable (fun x => x) 1).bind (fun r => removeOp r.1 5 7)).map
        (fun r => (r.1, r.2.2))
      = some (false,
          [Ev.fetch 0, Ev.fetch 1, Ev.unpin 0 false, Ev.unpin 1 true]) := by
  rfl


/-! ## C3: the redirection loops write outside the directory -/

/-- C3 (code evaluation at the failing input): with the parameters of the very
first split (`bkt_id = 0`, `img_id = 1`, new local depth 1, directory size 2),
the redirection loops of `SplitInsert` write directory slot `2 ^ 32 - 2`,
which lies outside `[0, size)`: the down-loop initialisation `bkt_id - diff`
wraps around on `uint32_t`. -/
theorem c3_redirect_writes_slot_out_of_range :
    (2 ^ 32 - 2) ∈ splitRedirectWrites 0 1 1 2 ∧ ¬ (2 ^ 32 - 2 < 2) := by
  constructor
  · unfold splitRedirectWrites
    have h : u32sub 0 (2 ^ 1) = 2 ^ 32 - 2 := by norm_num [u32sub, U32]
    rw [h, downLoopWrites]
    rw [if_pos (by norm_num)]
    exact List.mem_append_left _ (List.mem_cons_self _ _)
  · norm_num


/-! ## Pointwise characterisation of the redirection loops -/

theorem setSlot_lds (d : DirPage) (i p ld j : Nat) :
    (setSlot d i p ld).lds j = if j = i then ld else d.lds j := by
  simp [setSlot, setLocalDepth, setBucketPageId, upd]

theorem setSlot_ids (d : DirPage) (i p ld j : Nat) :
    (setSlot d i p ld).ids j = if j = i then p else d.ids j := by
  simp [setSlot, setLocalDepth, setBucketPageId, upd]

theorem setSlot_gd (d : DirPage) (i p ld : Nat) :
    (setSlot d i p ld).globalDepth = d.globalDepth := rfl

theorem setSlot_pageId (d : DirPage) (i p ld : Nat) :
    (setSlot d i p ld).pageId = d.pageId := rfl

/-- The down-loop `for (i = start; i >= diff; i -= diff)` (with `diff = 2^ld`)
sets exactly the slots congruent to `start` modulo `diff` in `[diff, start]`. -/
theorem redirectDown_spec (ld p : Nat) :
    ∀ (i : Nat) (d : DirPage),
      (redirectDown d i ld p).globalDepth = d.globalDepth ∧
      (redirectDown d i ld p).pageId = d.pageId ∧
      ∀ j, ((redirectDown d i ld p).lds j, (redirectDown d i ld p).ids j)
          = if j % 2 ^ ld = i % 2 ^ ld ∧ 2 ^ ld ≤ j ∧ j ≤ i then (ld, p)
            else (d.lds j, d.ids j) := by
  intro i
  induction i using Nat.strong_induction_on with
  | _ i IH =>
    intro d
    rw [redirectDown]
    split
    · rename_i hle
      have hpow : 0 < 2 ^ ld := Nat.pos_pow_of_pos ld (by norm_num)
      have hlt : i - 2 ^ ld < i := by omega
      obtain ⟨hgd, hpid, hj⟩ := IH (i - 2 ^ ld) hlt (setSlot d i p ld)
      refine ⟨by rw [hgd, setSlot_gd], by rw [hpid, setSlot_pageId], ?_⟩
      intro j
      rw [hj j]
      have hmod : (i - 2 ^ ld) % 2 ^ ld = i % 2 ^ ld := by
        conv_rhs => rw [← Nat.sub_add_cancel hle]
        rw [Nat.add_mod_right]
      by_cases hc : j % 2 ^ ld = i % 2 ^ ld ∧ 2 ^ ld ≤ j ∧ j ≤ i
      · rw [if_pos hc]
        by_cases hsmall : j ≤ i - 2 ^ ld
        · rw [if_pos ⟨by rw [hc.1, hmod], hc.2.1, hsmall⟩]
        · have hji : j = i := by
            have hcong : 2 ^ ld ∣ i - j :=
              (Nat.modEq_iff_dvd' hc.2.2).mp hc.1
            rcases hcong with ⟨c, hcv⟩
            rcases c with _ | c
            · omega
            · exfalso
              have : 2 ^ ld ≤ i - j := by
                rw [hcv]
                exact Nat.le_mul_of_pos_right _ (by omega)
              omega
          subst hji
          rw [if_neg (by omega), setSlot_lds, setSlot_ids, if_pos rfl, if_pos rfl]
      · rw [if_neg hc]
        have hne : j ≠ i := by
          intro hji
          exact hc (by subst hji; exact ⟨rfl, hle, le_refl _⟩)
        rw [if_neg, setSlot_lds, setSlot_ids, if_neg hne, if_neg hne]
        intro hcon
        exact hc ⟨by rw [hcon.1, hmod], hcon.2.1, by omega⟩
    · rename_i hgt
      refine ⟨rfl, rfl, ?_⟩
      intro j
      rw [if_neg]
      intro hcon
      omega

/-- The up-loop `for (i = start; i < size; i += diff)` (with `diff = 2^ld`)
sets exactly the slots congruent to `start` modulo `diff` in `[start, size)`. -/
theorem redirectUp_spec (ld p size : Nat) :
    ∀ (n : Nat) (i : Nat) (d : DirPage), size - i ≤ n →
      (redirectUp d i ld p size).globalDepth = d.globalDepth ∧
      (redirectUp d i ld p size).pageId = d.pageId ∧
      ∀ j, ((redirectUp d i ld p size).lds j, (redirectUp d i ld p size).ids j)
          = if j % 2 ^ ld = i % 2 ^ ld ∧ i ≤ j ∧ j < size then (ld, p)
            else (d.lds j, d.ids j) := by
  intro n
  induction n with
  | zero =>
    intro i d hn
    rw [redirectUp]
    rw [if_neg (by omega)]
    refine ⟨rfl, rfl, fun j => ?_⟩
    rw [if_neg (by omega)]
  | succ n IH =>
    intro i d hn
    rw [redirectUp]
    split
    · rename_i hlt
      have hpow : 0 < 2 ^ ld := Nat.pos_pow_of_pos ld (by norm_num)
      obtain ⟨hgd, hpid, hj⟩ := IH (i + 2 ^ ld) (setSlot d i p ld) (by omega)
      refine ⟨by rw [hgd, setSlot_gd], by rw [hpid, setSlot_pageId], ?_⟩
      intro j
      rw [hj j]
      have hmod : (i + 2 ^ ld) % 2 ^ ld = i % 2 ^ ld := Nat.add_mod_right i (2 ^ ld)
      by_cases hc : j % 2 ^ ld = i % 2 ^ ld ∧ i ≤ j ∧ j < size
      · rw [if_pos hc]
        by_cases hbig : i + 2 ^ ld ≤ j
        · rw [if_pos ⟨by rw [hc.1, hmod], hbig, hc.2.2⟩]
        · have hji : j = i := by
            have hcong : 2 ^ ld ∣ j - i :=
              (Nat.modEq_iff_dvd' hc.2.1).mp hc.1.symm
            rcases hcong with ⟨c, hcv⟩
            rcases c with _ | c
            · omega
            · exfalso
              have : 2 ^ ld ≤ j - i := by
                rw [hcv]
                exact Nat.le_mul_of_pos_right _ (by omega)
              omega
          subst hji
          rw [if_neg (by omega), setSlot_lds, setSlot_ids, if_pos rfl, if_pos rfl]
      · rw [if_neg hc]
        have hne : j ≠ i := by
          intro hji
          exact hc (by subst hji; exact ⟨rfl, le_refl _, hlt⟩)
        rw [if_neg, setSlot_lds, setSlot_ids, if_neg hne, if_neg hne]
        intro hcon
        exact hc ⟨by rw [hcon.1, hmod], by omega, hcon.2.2⟩
    · refine ⟨rfl, rfl, fun j => ?_⟩
      rw [if_neg (by omega)]


/-! ## Arithmetic prelude: XOR with a power of two, expressed through `%` -/

theorem mod_pow_agree_down {a b L j : Nat} (hj : j ≤ L)
    (h : a % 2 ^ L = b % 2 ^ L) : a % 2 ^ j = b % 2 ^ j := by
  have hd : 2 ^ j ∣ 2 ^ L := pow_dvd_pow 2 hj
  calc a % 2 ^ j = a % 2 ^ L % 2 ^ j := (Nat.mod_mod_of_dvd a hd).symm
    _ = b % 2 ^ L % 2 ^ j := by rw [h]
    _ = b % 2 ^ j := Nat.mod_mod_of_dvd b hd

theorem mod_pow_eq_iff_testBit {a b L : Nat} :
    a % 2 ^ L = b % 2 ^ L ↔ ∀ i, i < L → a.testBit i = b.testBit i := by
  constructor
  · intro h i hi
    have h1 : (a % 2 ^ L).testBit i = (b % 2 ^ L).testBit i := by rw [h]
    simpa [Nat.testBit_mod_two_pow, hi] using h1
  · intro h
    apply Nat.eq_of_testBit_eq
    intro i
    simp only [Nat.testBit_mod_two_pow]
    by_cases hi : i < L
    · simp [hi, h i hi]
    · simp [hi]

theorem xor_two_pow_mod_self (x k : Nat) :
    (x ^^^ 2 ^ k) % 2 ^ k = x % 2 ^ k := by
  rw [mod_pow_eq_iff_testBit]
  intro i hi
  rw [Nat.testBit_xor, Nat.testBit_two_pow_of_ne (by omega)]
  simp

theorem xor_two_pow_mod_succ_ne (x k : Nat) :
    (x ^^^ 2 ^ k) % 2 ^ (k + 1) ≠ x % 2 ^ (k + 1) := by
  intro h
  have h2 := (mod_pow_eq_iff_testBit.mp h) k (by omega)
  rw [Nat.testBit_xor, Nat.testBit_two_pow_self] at h2
  rcases x.testBit k with _ | _ <;> simp_all

theorem xor_two_pow_lt {x k n : Nat} (hx : x < 2 ^ n) (hk : k < n) :
    x ^^^ 2 ^ k < 2 ^ n := by
  apply Nat.lt_pow_two_of_testBit
  intro i hi
  rw [Nat.testBit_xor, Nat.testBit_two_pow_of_ne (by omega),
    Nat.testBit_lt_two_pow (lt_of_lt_of_le hx (Nat.pow_le_pow_right (by norm_num) hi))]
  rfl

theorem xor_two_pow_of_lt {x k : Nat} (hx : x < 2 ^ k) :
    x ^^^ 2 ^ k = x + 2 ^ k := by
  apply Nat.eq_of_testBit_eq
  intro i
  rcases Nat.lt_trichotomy i k with hik | hik | hik
  · rw [Nat.testBit_xor, Nat.testBit_two_pow_of_ne (by omega)]
    rw [Nat.add_comm, Nat.testBit_two_pow_add_gt hik]
    simp
  · subst hik
    rw [Nat.testBit_xor, Nat.testBit_two_pow_self, Nat.add_comm,
      Nat.testBit_two_pow_add_eq, Nat.testBit_lt_two_pow hx]
    rfl
  · have h1 : x + 2 ^ k < 2 ^ i := by
      have h2 : 2 ^ (k + 1) ≤ 2 ^ i := Nat.pow_le_pow_right (by norm_num) (by omega)
      have h3 : x + 2 ^ k < 2 ^ (k + 1) := by
        have : (2 : Nat) ^ (k + 1) = 2 ^ k + 2 ^ k := by ring
        omega
      omega
    rw [Nat.testBit_xor, Nat.testBit_two_pow_of_ne (by omega),
      Nat.testBit_lt_two_pow h1,
      Nat.testBit_lt_two_pow (lt_of_lt_of_le hx (le_of_lt (Nat.pow_lt_pow_right (by norm_num) hik)))]
    rfl

theorem xor_two_pow_ne (x k : Nat) : x ^^^ 2 ^ k ≠ x := by
  intro h
  have := xor_two_pow_mod_succ_ne x k
  rw [h] at this
  exact this rfl

/-- Two numbers below `2 ^ (m + 1)` that agree modulo `2 ^ m` are equal or
differ exactly by `2 ^ m`. -/
theorem eq_or_diff_of_mod_eq {a b m : Nat} (ha : a < 2 ^ (m + 1)) (hb : b < 2 ^ (m + 1))
    (h : a % 2 ^ m = b % 2 ^ m) : a = b ∨ a = b + 2 ^ m ∨ b = a + 2 ^ m := by
  have hpm : 0 < 2 ^ m := Nat.pos_pow_of_pos m (by norm_num)
  have h2 : (2 : Nat) ^ (m + 1) = 2 ^ m + 2 ^ m := by ring
  have ha2 := Nat.div_add_mod a (2 ^ m)
  have hb2 := Nat.div_add_mod b (2 ^ m)
  have hda : a / 2 ^ m < 2 := by
    rw [Nat.div_lt_iff_lt_mul hpm]
    omega
  have hdb : b / 2 ^ m < 2 := by
    rw [Nat.div_lt_iff_lt_mul hpm]
    omega
  interval_cases ha3 : a / 2 ^ m <;> interval_cases hb3 : b / 2 ^ m <;> omega

/-- The depth pattern `agree mod 2^(L-1), disagree mod 2^L` determines `L`. -/
theorem depth_pattern_unique {a b L1 L2 : Nat}
    (h1a : a % 2 ^ (L1 - 1) = b % 2 ^ (L1 - 1)) (h1b : a % 2 ^ L1 ≠ b % 2 ^ L1)
    (h2a : a % 2 ^ (L2 - 1) = b % 2 ^ (L2 - 1)) (h2b : a % 2 ^ L2 ≠ b % 2 ^ L2) :
    L1 = L2 := by
  rcases Nat.lt_trichotomy L1 L2 with h | h | h
  · exact absurd (mod_pow_agree_down (by omega) h2a) h1b
  · exact h
  · exact absurd (mod_pow_agree_down (by omega) h1a) h2b


/-! ## Bucket-page lemmas -/

theorem hasPair_iff_mem (b : Bucket) (k v : Nat) :
    bucketHasPair b k v = true ↔ (k, v) ∈ getKVPairs b := by
  simp only [bucketHasPair, List.any_eq_true, getKVPairs, List.mem_map, List.mem_filter,
    Bool.and_eq_true, beq_iff_eq]
  constructor
  · rintro ⟨sl, hsl, ⟨hr, hk⟩, hv⟩
    exact ⟨sl, ⟨hsl, hr⟩, by simp [hk, hv]⟩
  · rintro ⟨sl, ⟨hsl, hr⟩, hp⟩
    refine ⟨sl, hsl, ⟨hr, ?_⟩, ?_⟩
    · exact congrArg Prod.fst hp
    · exact congrArg Prod.snd hp

theorem getKVPairs_reset (b : Bucket) : getKVPairs (bucketReset b) = [] := by
  induction b with
  | nil => rfl
  | cons sl rest ih => simpa [getKVPairs, bucketReset] using ih

theorem getKVPairs_replicate (bas : Nat) : getKVPairs (emptyBucket bas) = [] := by
  induction bas with
  | zero => rfl
  | succ n ih => simpa [emptyBucket, getKVPairs, List.replicate_succ] using ih

theorem bucketIsEmpty_iff (b : Bucket) : bucketIsEmpty b = true ↔ getKVPairs b = [] := by
  induction b with
  | nil => simp [bucketIsEmpty, getKVPairs]
  | cons sl rest ih =>
    rcases hr : sl.readable with _ | _
    · simpa [bucketIsEmpty, getKVPairs, hr] using ih
    · simp [bucketIsEmpty, getKVPairs, hr]

theorem placeFirstFree_of_not_full (b : Bucket) (k v : Nat) (h : bucketIsFull b = false) :
    ∃ b2, placeFirstFree b k v = some b2 := by
  induction b with
  | nil => simp [bucketIsFull] at h
  | cons sl rest ih =>
    rcases hr : sl.readable with _ | _
    · exact ⟨{ occupied := true, readable := true, key := k, val := v } :: rest,
        by simp [placeFirstFree, hr]⟩
    · simp only [bucketIsFull, List.all_cons, hr, Bool.true_and] at h
      obtain ⟨b2, hb2⟩ := ih h
      refine ⟨sl :: b2, ?_⟩
      simp [placeFirstFree, hr, hb2]

theorem placeFirstFree_pairs (b : Bucket) (k v : Nat) :
    ∀ b2, placeFirstFree b k v = some b2 →
      List.Perm (getKVPairs b2) ((k, v) :: getKVPairs b) := by
  induction b with
  | nil => intro b2 h; simp [placeFirstFree] at h
  | cons sl rest ih =>
    intro b2 h
    rcases hr : sl.readable with _ | _
    · simp only [placeFirstFree, hr, Bool.false_eq_true, if_false] at h
      obtain rfl := (Option.some_inj).mp h.symm
      simp [getKVPairs, hr]
    · simp only [placeFirstFree, hr, if_true, Option.map_eq_some'] at h
      obtain ⟨b3, hb3, rfl⟩ := h
      have hperm := ih b3 hb3
      simp only [getKVPairs, List.filter_cons, hr, if_true, List.map_cons]
      exact (hperm.cons (sl.key, sl.val)).trans (List.Perm.swap _ _ _)

theorem clearFirstMatch_pairs (b : Bucket) (k v : Nat) :
    ∀ b2, clearFirstMatch b k v = some b2 →
      getKVPairs b2 = (getKVPairs b).erase (k, v) := by
  induction b with
  | nil => intro b2 h; simp [clearFirstMatch] at h
  | cons sl rest ih =>
    intro b2 h
    by_cases hm : (sl.readable && sl.key == k && sl.val == v) = true
    · simp only [clearFirstMatch, hm, if_true] at h
      obtain rfl := (Option.some_inj).mp h.symm
      simp only [Bool.and_eq_true, beq_iff_eq] at hm
      obtain ⟨⟨hr, hk⟩, hv⟩ := hm
      simp only [getKVPairs, List.filter_cons, hr, if_true, List.map_cons, hk, hv]
      simp [List.erase_cons_head]
    · simp only [clearFirstMatch, hm, Bool.false_eq_true, if_false,
        Option.map_eq_some'] at h
      obtain ⟨b3, hb3, rfl⟩ := h
      have hrec := ih b3 hb3
      rcases hr : sl.readable with _ | _
      · simpa [getKVPairs, hr] using hrec
      · have hne : (sl.key, sl.val) ≠ (k, v) := by
          intro hc
          apply hm
          simp only [Prod.mk.injEq] at hc
          simp [hr, hc.1, hc.2]
        simp only [getKVPairs, List.filter_cons, hr, if_true, List.map_cons]
        rw [List.erase_cons_tail]
        · simpa [getKVPairs, hr] using congrArg (List.cons (sl.key, sl.val)) hrec
        · simp [hne]

theorem clearFirstMatch_none (b : Bucket) (k v : Nat) (h : clearFirstMatch b k v = none) :
    (k, v) ∉ getKVPairs b := by
  induction b with
  | nil => simp [getKVPairs]
  | cons sl rest ih =>
    by_cases hm : (sl.readable && sl.key == k && sl.val == v) = true
    · simp [clearFirstMatch, hm] at h
    · simp only [clearFirstMatch, hm, Bool.false_eq_true, if_false,
        Option.map_eq_none'] at h
      have hrec := ih h
      rcases hr : sl.readable with _ | _
      · simpa [getKVPairs, hr] using hrec
      · have hne : (sl.key, sl.val) ≠ (k, v) := by
          intro hc
          apply hm
          simp only [Prod.mk.injEq] at hc
          simp [hr, hc.1, hc.2]
        simp only [getKVPairs, List.filter_cons, hr, if_true, List.map_cons, List.mem_cons]
        rintro (hc | hc)
        · exact hne hc.symm
        · exact hrec hc

/-- Behaviour of `bucketInsert` on a non-full bucket: membership afterwards is
membership before or being the new pair, and no-duplicates is preserved. -/
theorem bucketInsert_not_full_spec (b : Bucket) (k v : Nat)
    (h : bucketIsFull b = false) :
    (∀ k2 v2, (k2, v2) ∈ getKVPairs (bucketInsert b k v).1
        ↔ ((k2, v2) ∈ getKVPairs b ∨ (k2 = k ∧ v2 = v))) ∧
    ((getKVPairs b).Nodup → (getKVPairs (bucketInsert b k v).1).Nodup) := by
  unfold bucketInsert
  by_cases hdup : bucketHasPair b k v = true
  · rw [if_pos hdup]
    have hmem := (hasPair_iff_mem b k v).mp hdup
    constructor
    · intro k2 v2
      constructor
      · exact fun hx => Or.inl hx
      · rintro (hx | ⟨rfl, rfl⟩)
        · exact hx
        · exact hmem
    · exact fun hx => hx
  · rw [if_neg hdup]
    obtain ⟨b2, hb2⟩ := placeFirstFree_of_not_full b k v h
    rw [hb2]
    have hperm := placeFirstFree_pairs b k v b2 hb2
    constructor
    · intro k2 v2
      rw [hperm.mem_iff]
      simp only [List.mem_cons, Prod.mk.injEq]
      tauto
    · intro hnd
      refine hperm.nodup_iff.mpr ?_
      refine List.Nodup.cons ?_ hnd
      intro hc
      exact hdup ((hasPair_iff_mem b k v).mpr hc)

/-- Behaviour of `bucketInsert` when it succeeds (used for the rehash loop). -/
theorem bucketInsert_success_spec (b : Bucket) (k v : Nat) (b2 : Bucket)
    (h : bucketInsert b k v = (b2, true)) :
    (∀ k2 v2, (k2, v2) ∈ getKVPairs b2
        ↔ ((k2, v2) ∈ getKVPairs b ∨ (k2 = k ∧ v2 = v))) ∧
    ((k, v) ∉ getKVPairs b) ∧
    ((getKVPairs b).Nodup → (getKVPairs b2).Nodup) := by
  unfold bucketInsert at h
  by_cases hdup : bucketHasPair b k v = true
  · rw [if_pos hdup] at h
    simp at h
  · rw [if_neg hdup] at h
    rcases hf : placeFirstFree b k v with _ | b3
    · rw [hf] at h; simp at h
    · rw [hf] at h
      simp only [Prod.mk.injEq] at h
      obtain ⟨h1, -⟩ := h
      subst h1
      have hperm := placeFirstFree_pairs b k v _ hf
      have hnd : (k, v) ∉ getKVPairs b := fun hc => hdup ((hasPair_iff_mem b k v).mpr hc)
      refine ⟨?_, hnd, ?_⟩
      · intro k2 v2
        rw [hperm.mem_iff]
        simp only [List.mem_cons, Prod.mk.injEq]
        tauto
      · intro hb
        exact hperm.nodup_iff.mpr (List.Nodup.cons (fun hc => hnd hc) hb)

/-- Behaviour of `bucketRemove` on a duplicate-free bucket. -/
theorem bucketRemove_spec (b : Bucket) (k v : Nat) (hnd : (getKVPairs b).Nodup) :
    (∀ k2 v2, (k2, v2) ∈ getKVPairs (bucketRemove b k v).1
        ↔ ((k2, v2) ∈ getKVPairs b ∧ ¬ (k2 = k ∧ v2 = v))) ∧
    (getKVPairs (bucketRemove b k v).1).Nodup := by
  unfold bucketRemove
  rcases hc : clearFirstMatch b k v with _ | b2
  · have hnm := clearFirstMatch_none b k v hc
    refine ⟨?_, hnd⟩
    intro k2 v2
    constructor
    · intro hx
      refine ⟨hx, ?_⟩
      rintro ⟨rfl, rfl⟩
      exact hnm hx
    · exact fun hx => hx.1
  · have hpr := clearFirstMatch_pairs b k v b2 hc
    refine ⟨?_, ?_⟩
    · intro k2 v2
      simp only [hpr]
      rw [List.Nodup.mem_erase_iff hnd]
      constructor
      · rintro ⟨hne, hx⟩
        refine ⟨hx, ?_⟩
        rintro ⟨rfl, rfl⟩
        exact hne rfl
      · rintro ⟨hx, hne⟩
        refine ⟨?_, hx⟩
        intro hc2
        simp only [Prod.mk.injEq] at hc2
        exact hne ⟨hc2.1, hc2.2⟩
    · simp only [hpr]
      exact hnd.erase _


/-! ## Rehash loop specification -/

/-- The rehash target of a key (source line 164):
`Hash(key) & GetLocalDepthMask(img_id)`. -/
def rehashTarget (d : DirPage) (hashF : Nat → Nat) (imgId k : Nat) : Nat :=
  (hashF k % U32) &&& localDepthMask d imgId

theorem rehashPairs_congr (d1 d2 : DirPage) (hashF : Nat → Nat) (imgId bktId : Nat)
    (hmask : localDepthMask d1 imgId = localDepthMask d2 imgId) :
    ∀ (prs : List (Nat × Nat)) (accB accI : Bucket),
      rehashPairs d1 hashF imgId bktId accB accI prs
        = rehashPairs d2 hashF imgId bktId accB accI prs := by
  intro prs
  induction prs with
  | nil => intro accB accI; rfl
  | cons p rest ih =>
    intro accB accI
    rcases p with ⟨k, v⟩
    simp only [rehashPairs, hmask]
    split
    · split
      · rcases bucketInsert accI k v with ⟨b2, r⟩
        rcases r with _ | _
        · rfl
        · exact ih accB b2
      · rcases bucketInsert accB k v with ⟨b2, r⟩
        rcases r with _ | _
        · rfl
        · exact ih b2 accI
    · rfl

theorem rehashPairs_spec (d : DirPage) (hashF : Nat → Nat) (imgId bktId : Nat) :
    ∀ (prs : List (Nat × Nat)) (accB accI bB bI : Bucket),
      rehashPairs d hashF imgId bktId accB accI prs = some (bB, bI) →
      (∀ k2 v2, ((k2, v2) ∈ getKVPairs bB ↔ ((k2, v2) ∈ getKVPairs accB ∨
          ((k2, v2) ∈ prs ∧ ¬ rehashTarget d hashF imgId k2 = imgId
            ∧ rehashTarget d hashF imgId k2 = bktId)))) ∧
      (∀ k2 v2, ((k2, v2) ∈ getKVPairs bI ↔ ((k2, v2) ∈ getKVPairs accI ∨
          ((k2, v2) ∈ prs ∧ rehashTarget d hashF imgId k2 = imgId)))) ∧
      ((getKVPairs accB).Nodup → (getKVPairs accI).Nodup →
        (getKVPairs bB).Nodup ∧ (getKVPairs bI).Nodup) ∧
      (∀ p ∈ prs, rehashTarget d hashF imgId p.1 = imgId
          ∨ rehashTarget d hashF imgId p.1 = bktId) := by
  intro prs
  induction prs with
  | nil =>
    intro accB accI bB bI h
    simp only [rehashPairs, Option.some_inj, Prod.mk.injEq] at h
    obtain ⟨rfl, rfl⟩ := h
    refine ⟨?_, ?_, fun h1 h2 => ⟨h1, h2⟩, by simp⟩
    · intro k2 v2; simp
    · intro k2 v2; simp
  | cons p rest ih =>
    intro accB accI bB bI h
    rcases p with ⟨k, v⟩
    simp only [rehashPairs] at h
    split at h
    · rename_i hin
      split at h
      · rename_i htgt
        rcases hbi : bucketInsert accI k v with ⟨b2, r⟩
        rw [hbi] at h
        rcases r with _ | _
        · simp at h
        · obtain ⟨hB, hI, hnd, hall⟩ := ih accB b2 bB bI h
          obtain ⟨hmem2, hnotin2, hnd2⟩ := bucketInsert_success_spec accI k v b2 hbi
          have htgt2 : rehashTarget d hashF imgId k = imgId := htgt
          refine ⟨?_, ?_, ?_, ?_⟩
          · intro k2 v2
            rw [hB k2 v2]
            simp only [List.mem_cons, Prod.mk.injEq]
            constructor
            · rintro (hx | ⟨hx, hni, hbk⟩)
              · exact Or.inl hx
              · exact Or.inr ⟨Or.inr hx, hni, hbk⟩
            · rintro (hx | ⟨hx | hx, hni, hbk⟩)
              · exact Or.inl hx
              · exfalso
                apply hni
                rw [hx.1, htgt2]
              · exact Or.inr ⟨hx, hni, hbk⟩
          · intro k2 v2
            rw [hI k2 v2]
            simp only [hmem2 k2 v2, List.mem_cons, Prod.mk.injEq]
            constructor
            · rintro ((hx | hx) | ⟨hx, hi⟩)
              · exact Or.inl hx
              · exact Or.inr ⟨Or.inl (by simp [hx.1, hx.2]), by rw [hx.1]; exact htgt2⟩
              · exact Or.inr ⟨Or.inr hx, hi⟩
            · rintro (hx | ⟨hx | hx, hi⟩)
              · exact Or.inl (Or.inl hx)
              · exact Or.inl (Or.inr ⟨hx.1, hx.2⟩)
              · exact Or.inr ⟨hx, hi⟩
          · intro h1 h2
            exact hnd h1 (hnd2 h2)
          · intro q hq
            rcases List.mem_cons.mp hq with hq | hq
            · subst hq
              exact Or.inl htgt2
            · exact hall q hq
      · rename_i htgt
        have hbkt : rehashTarget d hashF imgId k = bktId := by
          rcases hin with hx | hx
          · exact absurd hx htgt
          · exact hx
        rcases hbi : bucketInsert accB k v with ⟨b2, r⟩
        rw [hbi] at h
        rcases r with _ | _
        · simp at h
        · obtain ⟨hB, hI, hnd, hall⟩ := ih b2 accI bB bI h
          obtain ⟨hmem2, hnotin2, hnd2⟩ := bucketInsert_success_spec accB k v b2 hbi
          refine ⟨?_, ?_, ?_, ?_⟩
          · intro k2 v2
            rw [hB k2 v2]
            simp only [hmem2 k2 v2, List.mem_cons, Prod.mk.injEq]
            constructor
            · rintro ((hx | hx) | ⟨hx, hni, hbk⟩)
              · exact Or.inl hx
              · exact Or.inr ⟨Or.inl (by simp [hx.1, hx.2]), by rw [hx.1]; exact htgt, by rw [hx.1]; exact hbkt⟩
              · exact Or.inr ⟨Or.inr hx, hni, hbk⟩
            · rintro (hx | ⟨hx | hx, hni, hbk⟩)
              · exact Or.inl (Or.inl hx)
              · exact Or.inl (Or.inr ⟨hx.1, hx.2⟩)
              · exact Or.inr ⟨hx, hni, hbk⟩
          · intro k2 v2
            rw [hI k2 v2]
            simp only [List.mem_cons, Prod.mk.injEq]
            constructor
            · rintro (hx | ⟨hx, hi⟩)
              · exact Or.inl hx
              · exact Or.inr ⟨Or.inr hx, hi⟩
            · rintro (hx | ⟨hx | hx, hi⟩)
              · exact Or.inl hx
              · exfalso
                apply htgt
                rw [← hx.1]
                exact hi
              · exact Or.inr ⟨hx, hi⟩
          · intro h1 h2
            exact hnd (hnd2 h1) h2
          · intro q hq
            rcases List.mem_cons.mp hq with hq | hq
            · subst hq
              exact Or.inr hbkt
            · exact hall q hq
    · simp at h

/-! ## Membership in the GetValue result -/

theorem mem_bucketGetValue_iff (b : Bucket) (k v : Nat) :
    v ∈ bucketGetValue b k ↔ bucketHasPair b k v = true := by
  rw [hasPair_iff_mem]
  simp only [bucketGetValue, getKVPairs, List.mem_map, List.mem_filter, Bool.and_eq_true,
    beq_iff_eq]
  constructor
  · rintro ⟨sl, ⟨hsl, hr, hk⟩, hv⟩
    exact ⟨sl, ⟨hsl, hr⟩, by simp [hk, hv]⟩
  · rintro ⟨sl, ⟨hsl, hr⟩, hp⟩
    have hk := congrArg Prod.fst hp
    have hv := congrArg Prod.snd hp
    exact ⟨sl, ⟨hsl, hr, hk⟩, hv⟩


/-! ## Effect lemmas for the plain operation paths -/

theorem unpinPage_eq_some (s : HT) (p : Nat) (d : Bool) (h : ¬ s.pins p = 0) :
    unpinPage s p d = some { s with
      pins := upd s.pins p (s.pins p - 1)
      dirty := upd s.dirty p (s.dirty p || d) } := by
  unfold unpinPage
  rw [if_neg h]

/-- `GetValue` completes, returns exactly the bucket scan of the routed page,
and leaves every state component except the dirty flags unchanged. -/
theorem getValueOp_effect (s : HT) (k : Nat) :
    ∃ dn, getValueOp s k
        = some ((!(bucketGetValue (s.pages (keyToPageId s k)) k).isEmpty,
                 bucketGetValue (s.pages (keyToPageId s k)) k),
            { s with dirty := dn },
            [Ev.fetch s.dirPageId, Ev.fetch (keyToPageId s k),
             Ev.unpin s.dirPageId false, Ev.unpin (keyToPageId s k) false]) := by
  unfold getValueOp
  dsimp only
  simp only [keyToPageId_pinPage, pinPage_dirPageId, pinPage_pages]
  rw [unpinPage_eq_some _ _ _ ?h1]
  case h1 =>
    rcases eq_or_ne s.dirPageId (keyToPageId s k) with he | hne
    · simp [pinPage, upd, he]
    · simp [pinPage, upd, hne, Ne.symm hne]
  dsimp only
  rw [unpinPage_eq_some _ _ _ ?h2]
  case h2 =>
    rcases eq_or_ne s.dirPageId (keyToPageId s k) with he | hne
    · simp [pinPage, upd, he]
    · simp [pinPage, upd, hne, Ne.symm hne]
  dsimp only
  refine ⟨upd (upd s.dirty s.dirPageId (s.dirty s.dirPageId || false)) (keyToPageId s k)
      (upd s.dirty s.dirPageId (s.dirty s.dirPageId || false) (keyToPageId s k) || false), ?_⟩
  refine congrArg some ?_
  refine Prod.ext rfl ?_
  refine Prod.ext ?_ rfl
  refine HT.ext rfl rfl rfl rfl rfl rfl ?_ rfl rfl
  simp only [pinPage_pins, pinPage_dirPageId]
  funext j
  rcases eq_or_ne s.dirPageId (keyToPageId s k) with he | hne <;>
    rcases eq_or_ne j (keyToPageId s k) with hj | hj <;>
      rcases eq_or_ne j s.dirPageId with hd | hd <;>
        simp_all [upd]

/-- The non-splitting branch of `Insert`: when the routed bucket is not full,
the insert completes with the bucket page rewritten in place. -/
theorem insertF_plain_effect (fuel : Nat) (s : HT) (k v : Nat)
    (hfull : bucketIsFull (s.pages (keyToPageId s k)) = false) :
    ∃ dn, insertF (fuel + 1) s k v
        = some ((bucketInsert (s.pages (keyToPageId s k)) k v).2,
            { s with
              pages := upd s.pages (keyToPageId s k)
                (bucketInsert (s.pages (keyToPageId s k)) k v).1
              dirty := dn },
            [Ev.fetch s.dirPageId, Ev.fetch (keyToPageId s k),
             Ev.unpin s.dirPageId false, Ev.unpin (keyToPageId s k) true]) := by
  rw [insertF]
  dsimp only
  simp only [keyToPageId_pinPage, pinPage_dirPageId, pinPage_pages]
  rw [if_neg (by rw [hfull]; simp)]
  rw [unpinPage_eq_some _ _ _ ?h1]
  case h1 =>
    rcases eq_or_ne s.dirPageId (keyToPageId s k) with he | hne
    · simp [pinPage, upd, he]
    · simp [pinPage, upd, hne, Ne.symm hne]
  dsimp only
  rw [unpinPage_eq_some _ _ _ ?h2]
  case h2 =>
    rcases eq_or_ne s.dirPageId (keyToPageId s k) with he | hne
    · simp [pinPage, upd, he]
    · simp [pinPage, upd, hne, Ne.symm hne]
  dsimp only
  refine ⟨upd (upd s.dirty s.dirPageId (s.dirty s.dirPageId || false)) (keyToPageId s k)
      (upd s.dirty s.dirPageId (s.dirty s.dirPageId || false) (keyToPageId s k) || true), ?_⟩
  refine congrArg some ?_
  refine Prod.ext rfl ?_
  refine Prod.ext ?_ rfl
  refine HT.ext rfl rfl rfl rfl rfl rfl ?_ rfl rfl
  simp only [pinPage_pins, pinPage_dirPageId]
  funext j
  rcases eq_or_ne s.dirPageId (keyToPageId s k) with he | hne <;>
    rcases eq_or_ne j (keyToPageId s k) with hj | hj <;>
      rcases eq_or_ne j s.dirPageId with hd | hd <;>
        simp_all [upd]

/-- The bucket-rewrite phase of `Remove`: the bucket page is rewritten in
place, and `Merge` is invoked from the resulting state exactly when the
removal succeeded and left the bucket empty. -/
theorem removeOp_effect (s : HT) (k v : Nat) :
    ∃ pn dn, removeOp s k v
        = (if ((bucketRemove (s.pages (keyToPageId s k)) k v).2
              && bucketIsEmpty (bucketRemove (s.pages (keyToPageId s k)) k v).1) = true then
            match mergeOp { s with
                pages := upd s.pages (keyToPageId s k)
                  (bucketRemove (s.pages (keyToPageId s k)) k v).1
                pins := pn
                dirty := dn } k v with
            | none => none
            | some (s6, tr) =>
              some ((bucketRemove (s.pages (keyToPageId s k)) k v).2, s6,
                [Ev.fetch s.dirPageId, Ev.fetch (keyToPageId s k),
                 Ev.unpin s.dirPageId false, Ev.unpin (keyToPageId s k) true] ++ tr)
          else some ((bucketRemove (s.pages (keyToPageId s k)) k v).2,
            { s with
              pages := upd s.pages (keyToPageId s k)
                (bucketRemove (s.pages (keyToPageId s k)) k v).1
              pins := pn
              dirty := dn },
            [Ev.fetch s.dirPageId, Ev.fetch (keyToPageId s k),
             Ev.unpin s.dirPageId false, Ev.unpin (keyToPageId s k) true])) ∧
      pn = s.pins := by
  unfold removeOp
  dsimp only
  simp only [keyToPageId_pinPage, pinPage_dirPageId, pinPage_pages]
  rw [unpinPage_eq_some _ _ _ ?h1]
  case h1 =>
    rcases eq_or_ne s.dirPageId (keyToPageId s k) with he | hne
    · simp [pinPage, upd, he]
    · simp [pinPage, upd, hne, Ne.symm hne]
  dsimp only
  rw [unpinPage_eq_some _ _ _ ?h2]
  case h2 =>
    rcases eq_or_ne s.dirPageId (keyToPageId s k) with he | hne
    · simp [pinPage, upd, he]
    · simp [pinPage, upd, hne, Ne.symm hne]
  dsimp only
  refine ⟨upd (upd (pinPage (pinPage s s.dirPageId) (keyToPageId s k)).pins s.dirPageId
        ((pinPage (pinPage s s.dirPageId) (keyToPageId s k)).pins s.dirPageId - 1))
      (keyToPageId s k)
      (upd (pinPage (pinPage s s.dirPageId) (keyToPageId s k)).pins s.dirPageId
        ((pinPage (pinPage s s.dirPageId) (keyToPageId s k)).pins s.dirPageId - 1)
        (keyToPageId s k) - 1),
    upd (upd (pinPage (pinPage s s.dirPageId) (keyToPageId s k)).dirty s.dirPageId
        ((pinPage (pinPage s s.dirPageId) (keyToPageId s k)).dirty s.dirPageId || false))
      (keyToPageId s k)
      (upd (pinPage (pinPage s s.dirPageId) (keyToPageId s k)).dirty s.dirPageId
        ((pinPage (pinPage s s.dirPageId) (keyToPageId s k)).dirty s.dirPageId || false)
        (keyToPageId s k) || true), ?_, ?_⟩
  · split
    · rfl
    · rfl
  · simp only [pinPage_pins, pinPage_dirPageId]
    funext j
    rcases eq_or_ne s.dirPageId (keyToPageId s k) with he | hne <;>
      rcases eq_or_ne j (keyToPageId s k) with hj | hj <;>
        rcases eq_or_ne j s.dirPageId with hd | hd <;>
          simp_all [upd]



/-! ## Index arithmetic for the loop starting points -/

theorem hashOf_lt_u32 (s : HT) (k : Nat) : hashOf s k < U32 :=
  Nat.mod_lt _ (by norm_num [U32])

theorem keyToDirectoryIndex_eq_mod (s : HT) (k : Nat) :
    keyToDirectoryIndex s k = hashOf s k % 2 ^ s.dir.globalDepth := by
  simp [keyToDirectoryIndex, globalDepthMask, Nat.and_pow_two_sub_one_eq_mod]

theorem keyToDirectoryIndex_lt (s : HT) (k : Nat) :
    keyToDirectoryIndex s k < 2 ^ s.dir.globalDepth := by
  rw [keyToDirectoryIndex_eq_mod]
  exact Nat.mod_lt _ (Nat.pos_pow_of_pos _ (by norm_num))

theorem keyToDirectoryIndex_lt_u32 (s : HT) (k : Nat) :
    keyToDirectoryIndex s k < U32 :=
  lt_of_le_of_lt (by rw [keyToDirectoryIndex_eq_mod]; exact Nat.mod_le _ _) (hashOf_lt_u32 s k)

theorem pow_mod_u32_eq_zero {m : Nat} (h : 32 < m) : (2 : Nat) ^ m % U32 = 0 :=
  Nat.mod_eq_zero_of_dvd (show (2 : Nat) ^ 32 ∣ 2 ^ m from pow_dvd_pow 2 (by omega))

theorem add_pow_mod_u32_mod (x m : Nat) (hx : x < U32) :
    ((x + 2 ^ m) % U32) % 2 ^ m = x % 2 ^ m := by
  rcases le_or_lt m 32 with h | h
  · have hd : (2 : Nat) ^ m ∣ U32 := by
      show (2 : Nat) ^ m ∣ 2 ^ 32
      exact pow_dvd_pow 2 h
    rw [Nat.mod_mod_of_dvd _ hd, Nat.add_mod_right]
  · have h1 : (x + 2 ^ m) % U32 = x := by
      rw [Nat.add_mod, pow_mod_u32_eq_zero h, Nat.add_zero,
        Nat.mod_mod_of_dvd x (dvd_refl U32), Nat.mod_eq_of_lt hx]
    rw [h1]

theorem sub32_pow_mod (x m : Nat) (hx : x < U32) :
    (u32sub x (2 ^ m)) % 2 ^ m = x % 2 ^ m := by
  unfold u32sub
  rcases lt_trichotomy m 32 with h | h | h
  · have hd : (2 : Nat) ^ m ∣ U32 := by
      show (2 : Nat) ^ m ∣ 2 ^ 32
      exact pow_dvd_pow 2 (by omega)
    have hlt : (2 : Nat) ^ m < U32 := by
      show (2 : Nat) ^ m < 2 ^ 32
      exact Nat.pow_lt_pow_right (by norm_num) h
    rw [Nat.mod_eq_of_lt hlt, Nat.mod_eq_of_lt hx, Nat.mod_mod_of_dvd _ hd, Nat.add_mod,
      Nat.mod_eq_zero_of_dvd (Nat.dvd_sub' hd (dvd_refl _)),
      Nat.add_zero, Nat.mod_mod_of_dvd _ (dvd_refl _)]
  · subst h
    have h0 : (2 : Nat) ^ 32 % U32 = 0 := by norm_num [U32]
    rw [h0, Nat.sub_zero, Nat.add_mod_right, Nat.mod_mod_of_dvd x (dvd_refl U32),
      Nat.mod_eq_of_lt hx]
  · rw [pow_mod_u32_eq_zero h, Nat.sub_zero, Nat.add_mod_right,
      Nat.mod_mod_of_dvd x (dvd_refl U32), Nat.mod_eq_of_lt hx]


/-! ## The four split redirect loops do not touch in-range slots -/

theorem redirectDown_gd (d : DirPage) (i ld p : Nat) :
    (redirectDown d i ld p).globalDepth = d.globalDepth :=
  (redirectDown_spec ld p i d).1

theorem redirectDown_pageId (d : DirPage) (i ld p : Nat) :
    (redirectDown d i ld p).pageId = d.pageId :=
  (redirectDown_spec ld p i d).2.1

theorem redirectUp_gd (d : DirPage) (i ld p size : Nat) :
    (redirectUp d i ld p size).globalDepth = d.globalDepth :=
  (redirectUp_spec ld p size size i d (by omega)).1

theorem redirectUp_pageId (d : DirPage) (i ld p size : Nat) :
    (redirectUp d i ld p size).pageId = d.pageId :=
  (redirectUp_spec ld p size size i d (by omega)).2.1

/-- A down-loop never writes a slot below `2 ^ ld` (its guard is `i >= diff`). -/
theorem redirectDown_id_lt (d : DirPage) (i ld p j : Nat) (hj : j < 2 ^ ld) :
    (redirectDown d i ld p).lds j = d.lds j ∧ (redirectDown d i ld p).ids j = d.ids j := by
  have h := (redirectDown_spec ld p i d).2.2 j
  rw [if_neg (by omega), Prod.mk.injEq] at h
  exact h

/-- An up-loop never writes a slot below its starting index. -/
theorem redirectUp_id_lt (d : DirPage) (i ld p size j : Nat) (hij : j < i) :
    (redirectUp d i ld p size).lds j = d.lds j ∧ (redirectUp d i ld p size).ids j = d.ids j := by
  have h := (redirectUp_spec ld p size size i d (by omega)).2.2 j
  rw [if_neg (by omega), Prod.mk.injEq] at h
  exact h

/-- When `b + 2 ^ ld` and `m + 2 ^ ld` do not wrap around `2 ^ 32`, the four
redirect loops of a split write no slot below `2 ^ ld`: the down-loops only
touch slots `≥ 2 ^ ld`, and the up-loops start beyond every such slot. -/
theorem redirectLoops_spec (d : DirPage) (b m ld bp ip : Nat)
    (hbu : b + 2 ^ ld < U32) (hmu : m + 2 ^ ld < U32) :
    (redirectLoops d b m ld bp ip).globalDepth = d.globalDepth ∧
    (redirectLoops d b m ld bp ip).pageId = d.pageId ∧
    ∀ j, j < 2 ^ ld →
      (redirectLoops d b m ld bp ip).lds j = d.lds j ∧
      (redirectLoops d b m ld bp ip).ids j = d.ids j := by
  unfold redirectLoops
  dsimp only
  refine ⟨?_, ?_, ?_⟩
  · simp only [redirectUp_gd, redirectDown_gd]
  · simp only [redirectUp_pageId, redirectDown_pageId]
  · intro j hj
    have hlt4 : j < (m + 2 ^ ld) % U32 := by rw [Nat.mod_eq_of_lt hmu]; omega
    have hlt2 : j < (b + 2 ^ ld) % U32 := by rw [Nat.mod_eq_of_lt hbu]; omega
    constructor
    · rw [(redirectUp_id_lt _ _ _ _ _ j hlt4).1, (redirectDown_id_lt _ _ _ _ j hj).1,
        (redirectUp_id_lt _ _ _ _ _ j hlt2).1, (redirectDown_id_lt _ _ _ _ j hj).1]
    · rw [(redirectUp_id_lt _ _ _ _ _ j hlt4).2, (redirectDown_id_lt _ _ _ _ j hj).2,
        (redirectUp_id_lt _ _ _ _ _ j hlt2).2, (redirectDown_id_lt _ _ _ _ j hj).2]

/-! ## Effect lemma for the growth split step -/

/-- The growth branch of `SplitInsert` (the local depth at the hashed slot
equals the global depth, so the directory doubles): the step routes to a fresh
image page, rewrites the two buckets by the rehash loop, and produces a
directory described pointwise below, then re-runs `Insert`. -/
theorem splitInsertF_growth_effect (fuel : Nat) (s : HT) (k v : Nat) (bktB imgB : Bucket)
    (hfull : bucketIsFull (s.pages (keyToPageId s k)) = true)
    (hL : s.dir.lds (keyToDirectoryIndex s k) = s.dir.globalDepth)
    (hMD : s.dir.globalDepth < MAX_DEPTH)
    (hfresh : keyToPageId s k ≠ s.nextPid)
    (hreh : rehashPairs (mkLdDir (s.dir.globalDepth + 1)) s.hashFn
        (keyToDirectoryIndex s k + 2 ^ s.dir.globalDepth) (keyToDirectoryIndex s k)
        (bucketReset (s.pages (keyToPageId s k))) (emptyBucket s.bas)
        (getKVPairs (s.pages (keyToPageId s k))) = some (bktB, imgB)) :
    ∃ D9 pg pn dn an,
      splitInsertF (fuel + 1) s k v
        = (match insertF fuel { s with
              dir := D9
              pages := pg
              nextPid := s.nextPid + 1
              pins := pn
              dirty := dn
              alloc := an } k v with
           | none => none
           | some (r, s10, tr) =>
             some (r, s10,
               [Ev.fetch s.dirPageId, Ev.fetch (keyToPageId s k), Ev.newp s.nextPid,
                Ev.unpin s.dirPageId true, Ev.unpin (keyToPageId s k) true,
                Ev.unpin s.nextPid true] ++ tr)) ∧
      pg = upd (upd (upd s.pages s.nextPid (emptyBucket s.bas)) (keyToPageId s k) bktB)
        s.nextPid imgB ∧
      pn = s.pins ∧
      an = upd s.alloc s.nextPid true ∧
      D9.globalDepth = s.dir.globalDepth + 1 ∧
      D9.pageId = s.dir.pageId ∧
      (∀ j, j < 2 ^ (s.dir.globalDepth + 1) →
        D9.lds j = (if j = keyToDirectoryIndex s k
                       ∨ j = keyToDirectoryIndex s k + 2 ^ s.dir.globalDepth
                    then s.dir.globalDepth + 1
                    else s.dir.lds (j % 2 ^ s.dir.globalDepth)) ∧
        D9.ids j = (if j = keyToDirectoryIndex s k then keyToPageId s k
                    else if j = keyToDirectoryIndex s k + 2 ^ s.dir.globalDepth then s.nextPid
                    else s.dir.ids (j % 2 ^ s.dir.globalDepth))) := by
  have hblt : keyToDirectoryIndex s k < 2 ^ s.dir.globalDepth := keyToDirectoryIndex_lt s k
  rw [splitInsertF]
  dsimp only
  simp only [keyToPageId_pinPage, keyToDirectoryIndex_pinPage, pinPage_dir, pinPage_pages,
    pinPage_dirPageId, pinPage_nextPid, pinPage_hashFn, pinPage_bas, pinPage_alloc]
  rw [if_pos hfull]
  have hgrow : (incrLocalDepth s.dir (keyToDirectoryIndex s k)).globalDepth
      < (incrLocalDepth s.dir (keyToDirectoryIndex s k)).lds (keyToDirectoryIndex s k) := by
    simp [incrLocalDepth, setLocalDepth, upd, hL]
  simp only [if_pos hgrow]
  have hinc : incrGlobalDepth (incrLocalDepth s.dir (keyToDirectoryIndex s k))
      = some (incrGlobalDepthCore (incrLocalDepth s.dir (keyToDirectoryIndex s k))) := by
    unfold incrGlobalDepth
    rw [if_pos]
    exact hMD
  rw [hinc]
  dsimp only
  have himg : getSplitImageIndex (incrGlobalDepthCore (incrLocalDepth s.dir (keyToDirectoryIndex s k)))
      (keyToDirectoryIndex s k) = keyToDirectoryIndex s k + 2 ^ s.dir.globalDepth := by
    have hld2 : (incrGlobalDepthCore (incrLocalDepth s.dir (keyToDirectoryIndex s k))).lds
        (keyToDirectoryIndex s k) = s.dir.globalDepth + 1 := by
      simp [incrGlobalDepthCore, dirSize, incrLocalDepth, setLocalDepth, upd, hL,
        Nat.not_le.2 hblt]
    rw [getSplitImageIndex, hld2, Nat.add_sub_cancel]
    exact xor_two_pow_of_lt hblt
  simp only [himg]
  have hb1 : (2 : Nat) ^ s.dir.globalDepth
      ≤ keyToDirectoryIndex s k + 2 ^ s.dir.globalDepth := Nat.le_add_left _ _
  have hb2 : keyToDirectoryIndex s k + 2 ^ s.dir.globalDepth
      < 2 * 2 ^ s.dir.globalDepth := by omega
  have h153 : (incrGlobalDepthCore (incrLocalDepth s.dir (keyToDirectoryIndex s k))).ids
      (keyToDirectoryIndex s k + 2 ^ s.dir.globalDepth) = keyToPageId s k := by
    simp [incrGlobalDepthCore, dirSize, incrLocalDepth, setLocalDepth, keyToPageId, hb1, hb2]
  rw [if_pos h153]
  simp only [newPage]
  rw [if_pos (Ne.symm hfresh)]
  have h157 : (setBucketPageId (incrGlobalDepthCore (incrLocalDepth s.dir (keyToDirectoryIndex s k)))
        (keyToDirectoryIndex s k + 2 ^ s.dir.globalDepth) s.nextPid).lds (keyToDirectoryIndex s k)
      = (setBucketPageId (incrGlobalDepthCore (incrLocalDepth s.dir (keyToDirectoryIndex s k)))
        (keyToDirectoryIndex s k + 2 ^ s.dir.globalDepth) s.nextPid).lds
        (keyToDirectoryIndex s k + 2 ^ s.dir.globalDepth) := by
    simp [setBucketPageId, incrGlobalDepthCore, dirSize, incrLocalDepth, setLocalDepth, upd, hL,
      Nat.not_le.2 hblt, hb1, hb2]
  rw [if_pos h157]
  have hpag1 : upd s.pages s.nextPid (emptyBucket s.bas) (keyToPageId s k)
      = s.pages (keyToPageId s k) := by
    simp [upd, hfresh]
  have hpag2 : upd s.pages s.nextPid (emptyBucket s.bas) s.nextPid = emptyBucket s.bas := by
    simp [upd]
  simp only [hpag1, hpag2]
  have hmask : localDepthMask (setBucketPageId (incrGlobalDepthCore (incrLocalDepth s.dir
        (keyToDirectoryIndex s k))) (keyToDirectoryIndex s k + 2 ^ s.dir.globalDepth) s.nextPid)
        (keyToDirectoryIndex s k + 2 ^ s.dir.globalDepth)
      = localDepthMask (mkLdDir (s.dir.globalDepth + 1))
        (keyToDirectoryIndex s k + 2 ^ s.dir.globalDepth) := by
    simp [localDepthMask, mkLdDir, setBucketPageId, incrGlobalDepthCore, dirSize, incrLocalDepth,
      setLocalDepth, upd, hL, hb1, hb2]
  rw [rehashPairs_congr _ _ s.hashFn _ _ hmask, hreh]
  dsimp only
  have hld : (setBucketPageId (incrGlobalDepthCore (incrLocalDepth s.dir (keyToDirectoryIndex s k)))
        (keyToDirectoryIndex s k + 2 ^ s.dir.globalDepth) s.nextPid).lds
        (keyToDirectoryIndex s k + 2 ^ s.dir.globalDepth) = s.dir.globalDepth + 1 := by
    simp [setBucketPageId, incrGlobalDepthCore, dirSize, incrLocalDepth, setLocalDepth, upd, hL,
      hb1, hb2]
  simp only [hld]
  have h512 : (2 : Nat) ^ s.dir.globalDepth ≤ 2 ^ 9 :=
    Nat.pow_le_pow_right (by norm_num) (by have := hMD; unfold MAX_DEPTH at this; omega)
  have h1024 : (2 : Nat) ^ (s.dir.globalDepth + 1) ≤ 2 ^ 10 :=
    Nat.pow_le_pow_right (by norm_num) (by have := hMD; unfold MAX_DEPTH at this; omega)
  have h512v : (2 : Nat) ^ 9 = 512 := by norm_num
  have h1024v : (2 : Nat) ^ 10 = 1024 := by norm_num
  have hU32v : U32 = 4294967296 := by norm_num [U32]
  have hbu : keyToDirectoryIndex s k + 2 ^ (s.dir.globalDepth + 1) < U32 := by
    rw [hU32v]; omega
  have hmu : keyToDirectoryIndex s k + 2 ^ s.dir.globalDepth + 2 ^ (s.dir.globalDepth + 1)
      < U32 := by
    rw [hU32v]; omega
  rw [unpinPage_eq_some _ _ _ ?hp1]
  case hp1 =>
    rcases eq_or_ne s.dirPageId s.nextPid with h1 | h1 <;>
      rcases eq_or_ne s.dirPageId (keyToPageId s k) with h2 | h2 <;>
        simp [pinPage, upd, h1, h2, hfresh, Ne.symm hfresh] <;> omega
  dsimp only
  rw [unpinPage_eq_some _ _ _ ?hp2]
  case hp2 =>
    rcases eq_or_ne s.dirPageId s.nextPid with h1 | h1 <;>
      rcases eq_or_ne s.dirPageId (keyToPageId s k) with h2 | h2
    · exact absurd (h2 ▸ h1) hfresh
    · simp [pinPage, upd, Ne.symm h2, hfresh, h1] <;> omega
    · simp [pinPage, upd, ← h2, h1, Ne.symm h1] <;> omega
    · simp [pinPage, upd, Ne.symm h2, h2, hfresh, h1] <;> omega
  dsimp only
  rw [unpinPage_eq_some _ _ _ ?hp3]
  case hp3 =>
    rcases eq_or_ne s.dirPageId s.nextPid with h1 | h1 <;>
      rcases eq_or_ne s.dirPageId (keyToPageId s k) with h2 | h2
    · exact absurd (h2 ▸ h1) hfresh
    · simp [pinPage, upd, Ne.symm h2, hfresh, Ne.symm hfresh, h1] <;> omega
    · simp [pinPage, upd, ← h2, h1, Ne.symm h1, hfresh, Ne.symm hfresh] <;> omega
    · simp [pinPage, upd, Ne.symm h2, h2, hfresh, Ne.symm hfresh, h1, Ne.symm h1] <;> omega
  dsimp only
  refine ⟨_, _, _, _, _, rfl, rfl, ?hpn, rfl, ?hgd, ?hpid, ?hjj⟩
  case hpn =>
    funext j
    rcases eq_or_ne j s.dirPageId with hj1 | hj1 <;>
      rcases eq_or_ne j (keyToPageId s k) with hj2 | hj2 <;>
        rcases eq_or_ne j s.nextPid with hj3 | hj3 <;>
          rcases eq_or_ne s.dirPageId (keyToPageId s k) with hd1 | hd1 <;>
            rcases eq_or_ne s.dirPageId s.nextPid with hd2 | hd2 <;>
              simp_all [pinPage, upd] <;> omega
  case hgd =>
    rw [(redirectLoops_spec _ _ _ _ _ _ hbu hmu).1]
    rfl
  case hpid =>
    rw [(redirectLoops_spec _ _ _ _ _ _ hbu hmu).2.1]
    rfl
  case hjj =>
    intro j hj
    have hpow2 : (2 : Nat) ^ (s.dir.globalDepth + 1) = 2 * 2 ^ s.dir.globalDepth := by
      rw [pow_succ]; ring
    constructor
    · rw [((redirectLoops_spec _ _ _ _ _ _ hbu hmu).2.2 j hj).1]
      by_cases hjb : j = keyToDirectoryIndex s k
      · subst hjb
        simp [setBucketPageId, incrGlobalDepthCore, dirSize, incrLocalDepth, setLocalDepth,
          upd, hL, Nat.not_le.2 hblt]
      · by_cases hjm : j = keyToDirectoryIndex s k + 2 ^ s.dir.globalDepth
        · subst hjm
          simp [setBucketPageId, incrGlobalDepthCore, dirSize, incrLocalDepth, setLocalDepth,
            upd, hL, hb1, hb2, Nat.add_sub_cancel]
        · by_cases hlow : j < 2 ^ s.dir.globalDepth
          · have hmod : j % 2 ^ s.dir.globalDepth = j := Nat.mod_eq_of_lt hlow
            simp [setBucketPageId, incrGlobalDepthCore, dirSize, incrLocalDepth, setLocalDepth,
              upd, hjb, hjm, hmod, Nat.not_le.2 hlow]
          · have hband : 2 ^ s.dir.globalDepth ≤ j := Nat.not_lt.1 hlow
            have hband2 : j < 2 * 2 ^ s.dir.globalDepth := by omega
            have hmod : j % 2 ^ s.dir.globalDepth = j - 2 ^ s.dir.globalDepth := by
              rw [Nat.mod_eq_sub_mod hband, Nat.mod_eq_of_lt (by omega)]
            have hsub : j - 2 ^ s.dir.globalDepth ≠ keyToDirectoryIndex s k := by omega
            simp [setBucketPageId, incrGlobalDepthCore, dirSize, incrLocalDepth, setLocalDepth,
              upd, hjb, hjm, hsub, hmod, hband, hband2]
    · rw [((redirectLoops_spec _ _ _ _ _ _ hbu hmu).2.2 j hj).2]
      by_cases hjb : j = keyToDirectoryIndex s k
      · subst hjb
        simp [setBucketPageId, incrGlobalDepthCore, dirSize, incrLocalDepth, setLocalDepth,
          upd, keyToPageId, Nat.not_le.2 hblt,
          show keyToDirectoryIndex s k ≠ keyToDirectoryIndex s k + 2 ^ s.dir.globalDepth
            from by omega]
      · by_cases hjm : j = keyToDirectoryIndex s k + 2 ^ s.dir.globalDepth
        · subst hjm
          simp [setBucketPageId, incrGlobalDepthCore, dirSize, incrLocalDepth, setLocalDepth,
            upd, hb1, hb2, Nat.add_sub_cancel]
        · by_cases hlow : j < 2 ^ s.dir.globalDepth
          · have hmod : j % 2 ^ s.dir.globalDepth = j := Nat.mod_eq_of_lt hlow
            simp [setBucketPageId, incrGlobalDepthCore, dirSize, incrLocalDepth, setLocalDepth,
              upd, hjb, hjm, hmod, Nat.not_le.2 hlow]
          · have hband : 2 ^ s.dir.globalDepth ≤ j := Nat.not_lt.1 hlow
            have hband2 : j < 2 * 2 ^ s.dir.globalDepth := by omega
            have hmod : j % 2 ^ s.dir.globalDepth = j - 2 ^ s.dir.globalDepth := by
              rw [Nat.mod_eq_sub_mod hband, Nat.mod_eq_of_lt (by omega)]
            have hsub : j - 2 ^ s.dir.globalDepth ≠ keyToDirectoryIndex s k := by omega
            simp [setBucketPageId, incrGlobalDepthCore, dirSize, incrLocalDepth, setLocalDepth,
              upd, hjb, hjm, hsub, hmod, hband, hband2]


/-- The splitting branch of `Insert`: when the routed bucket is full, both
pages are unpinned clean and control passes to `SplitInsert`. -/
theorem insertF_full_effect (fuel : Nat) (s : HT) (k v : Nat)
    (hfull : bucketIsFull (s.pages (keyToPageId s k)) = true) :
    ∃ pn dn, insertF (fuel + 1) s k v
        = (match splitInsertF fuel { s with
              pins := pn
              dirty := dn } k v with
           | none => none
           | some (r, s5, tr) =>
             some (r, s5,
               [Ev.fetch s.dirPageId, Ev.fetch (keyToPageId s k),
                Ev.unpin s.dirPageId false, Ev.unpin (keyToPageId s k) false] ++ tr)) ∧
      pn = s.pins := by
  rw [insertF]
  dsimp only
  simp only [keyToPageId_pinPage, pinPage_dirPageId, pinPage_pages]
  rw [if_pos hfull]
  rw [unpinPage_eq_some _ _ _ ?h1]
  case h1 =>
    rcases eq_or_ne s.dirPageId (keyToPageId s k) with he | hne
    · simp [pinPage, upd, he]
    · simp [pinPage, upd, hne, Ne.symm hne]
  dsimp only
  rw [unpinPage_eq_some _ _ _ ?h2]
  case h2 =>
    rcases eq_or_ne s.dirPageId (keyToPageId s k) with he | hne
    · simp [pinPage, upd, he]
    · simp [pinPage, upd, hne, Ne.symm hne]
  dsimp only
  refine ⟨_, _, rfl, ?_⟩
  simp only [pinPage_pins, pinPage_dirPageId]
  funext j
  rcases eq_or_ne s.dirPageId (keyToPageId s k) with he | hne <;>
    rcases eq_or_ne j (keyToPageId s k) with hj | hj <;>
      rcases eq_or_ne j s.dirPageId with hd | hd <;>
        simp_all [upd]

/-- A split whose slot is already at the global depth fails outright when the
directory is at `MAX_DEPTH`: the modelled `IncrGlobalDepth` refuses to grow. -/
theorem splitInsertF_maxdepth_none (fuel : Nat) (s : HT) (k v : Nat)
    (hfull : bucketIsFull (s.pages (keyToPageId s k)) = true)
    (hL : s.dir.lds (keyToDirectoryIndex s k) = s.dir.globalDepth)
    (hMD : ¬ s.dir.globalDepth < MAX_DEPTH) :
    splitInsertF (fuel + 1) s k v = none := by
  rw [splitInsertF]
  dsimp only
  simp only [keyToPageId_pinPage, keyToDirectoryIndex_pinPage, pinPage_dir, pinPage_pages,
    pinPage_dirPageId]
  rw [if_pos hfull]
  have hgrow : (incrLocalDepth s.dir (keyToDirectoryIndex s k)).globalDepth
      < (incrLocalDepth s.dir (keyToDirectoryIndex s k)).lds (keyToDirectoryIndex s k) := by
    simp [incrLocalDepth, setLocalDepth, upd, hL]
  simp only [if_pos hgrow]
  have hnone : incrGlobalDepth (incrLocalDepth s.dir (keyToDirectoryIndex s k)) = none := by
    unfold incrGlobalDepth
    rw [if_neg]
    exact hMD
  rw [hnone]


/-- `newTable` builds exactly `table0`. -/
theorem newTable_eq (hashF : Nat → Nat) (bas : Nat) :
    newTable hashF bas = some (table0 hashF bas,
      [Ev.newp 0, Ev.newp 1, Ev.unpin 0 true, Ev.unpin 1 false]) := by
  unfold newTable
  dsimp only
  simp only [initialHT, newPage]
  rw [unpinPage_eq_some _ _ _ (by simp [upd])]
  dsimp only
  rw [unpinPage_eq_some _ _ _ (by simp [upd])]
  dsimp only
  refine congrArg some (Prod.ext ?_ rfl)
  refine HT.ext rfl rfl rfl ?_ ?_ rfl ?_ ?_ ?_
  · refine DirPage.ext rfl rfl ?_ ?_
    · funext j
      rcases eq_or_ne j 0 with h | h <;> simp [upd, setBucketPageId, setLocalDepth, table0, h]
    · funext j
      rcases eq_or_ne j 0 with h | h <;> simp [upd, setBucketPageId, setLocalDepth, table0, h]
  · funext j
    rcases eq_or_ne j 0 with h0 | h0 <;> rcases eq_or_ne j 1 with h1 | h1 <;>
      simp [upd, table0, h0, h1]
  · funext j
    rcases eq_or_ne j 0 with h0 | h0 <;> rcases eq_or_ne j 1 with h1 | h1 <;>
      simp [upd, table0, h0, h1]
  · funext j
    rcases eq_or_ne j 0 with h0 | h0 <;> rcases eq_or_ne j 1 with h1 | h1 <;>
      simp [upd, table0, h0, h1]
  · funext j
    rcases eq_or_ne j 0 with h0 | h0 <;> rcases eq_or_ne j 1 with h1 | h1 <;>
      simp [upd, table0, h0, h1]


/-- Propagate `none` through the trace-prefixing wrapper match used by the
`Insert`/`SplitInsert` effect equations. -/
theorem matchSplit_none (tr0 : List Ev) (o : Option (Bool × HT × List Ev)) (h : o = none) :
    (match o with
     | none => none
     | some (r, s5, tr) => some (r, s5, tr0 ++ tr)) = none := by
  subst h
  rfl

/-- Under the constant-zero hash, an insert that routes to a full one-slot
bucket at slot 0 can never complete: every split regrows the same full bucket
(all pairs rehash to the low half), so the recursion continues until the
modelled `MAX_DEPTH` guard fails, whatever the fuel. -/
theorem c5_same_hash_insert_stuck (k v a b : Nat) : ∀ fuel (s : HT),
    s.hashFn = (fun x => 0) → s.bas = 1 →
    s.dir.lds 0 = s.dir.globalDepth → s.dir.ids 0 = 1 →
    s.pages 1 = [⟨true, true, a, b⟩] → 2 ≤ s.nextPid →
    insertF fuel s k v = none := by
  intro fuel
  induction fuel using Nat.strong_induction_on with
  | _ fuel IH =>
    intro s hH hB hlds hids hpg hnp
    rcases fuel with _ | f
    · rfl
    · have hidx : keyToDirectoryIndex s k = 0 := by
        simp [keyToDirectoryIndex, hashOf, hH]
      have hkp : keyToPageId s k = 1 := by
        rw [keyToPageId, hidx, hids]
      have hfull : bucketIsFull (s.pages (keyToPageId s k)) = true := by
        rw [hkp, hpg]
        rfl
      obtain ⟨pn, dn, heq, hpn⟩ := insertF_full_effect f s k v hfull
      rw [heq]
      rcases f with _ | f2
      · rfl
      · have hH2 : ({ s with pins := pn, dirty := dn } : HT).hashFn = (fun x => 0) := hH
        have hB2 : ({ s with pins := pn, dirty := dn } : HT).bas = 1 := hB
        have hidx2 : keyToDirectoryIndex { s with pins := pn, dirty := dn } k = 0 := hidx
        have hkp2 : keyToPageId { s with pins := pn, dirty := dn } k = 1 := hkp
        have hfull2 : bucketIsFull (({ s with pins := pn, dirty := dn } : HT).pages
            (keyToPageId { s with pins := pn, dirty := dn } k)) = true := hfull
        have hL2 : ({ s with pins := pn, dirty := dn } : HT).dir.lds
            (keyToDirectoryIndex { s with pins := pn, dirty := dn } k)
            = ({ s with pins := pn, dirty := dn } : HT).dir.globalDepth := by
          rw [hidx2]
          exact hlds
        by_cases hMD : s.dir.globalDepth < MAX_DEPTH
        · have hpos : 0 < 2 ^ s.dir.globalDepth := Nat.pos_pow_of_pos _ (by norm_num)
          obtain ⟨D9, pg, pn2, dn2, an2, heq2, hpg2, hpn2, han2, hgd2, hpid2, hjj2⟩ :=
            splitInsertF_growth_effect f2 { s with pins := pn, dirty := dn } k v
              [⟨true, true, a, b⟩] (emptyBucket 1) hfull2 hL2 hMD
              (by rw [hkp2]; show (1 : Nat) ≠ s.nextPid; omega)
              (by
                rw [hidx2, hkp2]
                have hpgs : ({ s with pins := pn, dirty := dn } : HT).pages 1
                    = [⟨true, true, a, b⟩] := hpg
                rw [hpgs, hH2, hB2]
                simp [rehashPairs, mkLdDir, localDepthMask, bucketReset, bucketInsert,
                  bucketHasPair, placeFirstFree, getKVPairs, hpos.ne])
          rw [heq2]
          refine matchSplit_none _ _ (matchSplit_none _ _ ?hins)
          case hins =>
            apply IH f2 (by omega)
            · exact hH
            · exact hB
            · show D9.lds 0 = D9.globalDepth
              have h0 := hjj2 0 (Nat.pos_pow_of_pos _ (by norm_num))
              rw [hidx2] at h0
              simp at h0
              rw [h0.1, hgd2]
            · show D9.ids 0 = 1
              have h0 := hjj2 0 (Nat.pos_pow_of_pos _ (by norm_num))
              rw [hidx2, hkp2] at h0
              simp at h0
              exact h0.2
            · show pg 1 = [⟨true, true, a, b⟩]
              rw [hpg2, hkp2]
              have h1n : (1 : Nat) ≠ ({ s with pins := pn, dirty := dn } : HT).nextPid := by
                show (1 : Nat) ≠ s.nextPid
                omega
              simp [upd, h1n]
            · show 2 ≤ s.nextPid + 1
              omega
        · rw [splitInsertF_maxdepth_none f2 _ k v hfull2 hL2 hMD]


/-- With the constant-zero hash and one-slot buckets, inserting one pair and
then a second distinct pair never completes, for every recursion budget: the
second insert re-splits the same full bucket until the `MAX_DEPTH` guard
aborts it; no budget makes it return `false`. -/
theorem c5_run_none (fuel : Nat) :
    runOps fuel (fun x => 0) 1 [Op.ins 0 0, Op.ins 1 0] = none := by
  unfold runOps
  rw [newTable_eq]
  rcases fuel with _ | f
  · rfl
  · have hfull0 : bucketIsFull ((table0 (fun x => 0) 1).pages
        (keyToPageId (table0 (fun x => 0) 1) 0)) = false := by
      rfl
    obtain ⟨dn, heq⟩ := insertF_plain_effect f (table0 (fun x => 0) 1) 0 0 hfull0
    show runFrom (f + 1) (table0 (fun x => 0) 1) [Op.ins 0 0, Op.ins 1 0] = none
    rw [runFrom, stepOp, heq]
    dsimp only [Option.map]
    rw [runFrom, stepOp]
    have hnone := c5_same_hash_insert_stuck 1 0 0 0 (f + 1)
      { table0 (fun x => 0) 1 with
        pages := upd (table0 (fun x => 0) 1).pages (keyToPageId (table0 (fun x => 0) 1) 0)
          (bucketInsert ((table0 (fun x => 0) 1).pages
            (keyToPageId (table0 (fun x => 0) 1) 0)) 0 0).1
        dirty := dn }
      rfl rfl rfl rfl (by simp [table0, upd, keyToPageId, keyToDirectoryIndex, hashOf,
        emptyBucket, bucketInsert, bucketHasPair, placeFirstFree]) (by norm_num [table0])
    rw [hnone]
    rfl


/-- C5 (counterexample): with recursion budget 20 — far more than the
MAX_DEPTH = 9 splits the claim allows — the insert whose bucket stays full
after every split still does not return `false`: the whole run aborts
(`none`), because no table-level check ever stops the recursion; only the
modelled directory guard does, by failing. -/
theorem c5_split_recursion_counterexample :
    runOps 20 (fun x => 0) 1 [Op.ins 0 0, Op.ins 1 0] = none :=
  c5_run_none 20

/-- C5 (amended): the `Insert`/`SplitInsert` recursion of the source contains
no `MAX_DEPTH` check at all; on a bucket that stays full after every split the
insert never returns `false` — for every recursion budget the operation aborts
with the failed growth of the directory past `MAX_DEPTH` (modelled from the
spec's `global_depth ∈ [0, MAX_DEPTH]` constraint). -/
theorem c5_split_recursion_aborts :
    ∀ fuel, runOps fuel (fun x => 0) 1 [Op.ins 0 0, Op.ins 1 0] = none :=
  c5_run_none


/-! ## Merge: effect lemma for the proceeding case -/

/-- `uint32` subtraction in closed form for operands below `2 ^ 32`. -/
theorem u32sub_small (x y : Nat) (hx : x < U32) (hy : y ≤ U32) :
    u32sub x y = if y ≤ x then x - y else x + (U32 - y) := by
  unfold u32sub U32 at *
  split <;> omega

theorem pow_dvd_u32_sub_pow {m : Nat} (hm : m ≤ 32) : (2 : Nat) ^ m ∣ U32 - 2 ^ m :=
  Nat.dvd_sub' (show (2 : Nat) ^ m ∣ 2 ^ 32 from pow_dvd_pow 2 hm) (dvd_refl _)


/-- A residue class modulo `2 ^ ld` meets `[0, 2 ^ (ld + 1))` in exactly two
points. -/
theorem mem_class_two (b ld j : Nat) (hb : b < 2 ^ ld) (hj : j < 2 ^ (ld + 1))
    (hmod : j % 2 ^ ld = b) : j = b ∨ j = b + 2 ^ ld := by
  have hd := Nat.div_add_mod j (2 ^ ld)
  have hpos : 0 < (2 : Nat) ^ ld := Nat.pos_pow_of_pos _ (by norm_num)
  have hlt : j / 2 ^ ld < 2 := by
    apply Nat.div_lt_of_lt_mul
    rw [pow_succ] at hj
    omega
  have hq : j / 2 ^ ld = 0 ∨ j / 2 ^ ld = 1 := by
    rcases Nat.lt_or_ge (j / 2 ^ ld) 1 with h | h
    · exact Or.inl (Nat.lt_one_iff.mp h)
    · exact Or.inr (Nat.le_antisymm (Nat.lt_succ_iff.mp hlt) h)
  rcases hq with h | h <;> rw [h, hmod] at hd <;> omega

/-- The two redirect loops of `Merge` (source lines 268-273), pointwise on
`[0, 2 ^ n)` with `ld = n - 1`: when the bucket index has its top bit clear
they rewrite exactly the image slot `b + 2 ^ ld`; when it is set, the down
start underflows out of range and the up start lands beyond the directory, so
neither loop writes an in-range slot. -/
theorem mergeLoops_pt (d : DirPage) (b ld ip n : Nat)
    (hgd : d.globalDepth = n) (hldn : ld + 1 = n) (hb : b < 2 ^ n) (hsmall : n ≤ 9) :
    ∀ j, j < 2 ^ n →
      ((redirectUp (redirectDown d (u32sub b (2 ^ ld)) ld ip) ((b + 2 ^ ld) % U32) ld ip
          (dirSize (redirectDown d (u32sub b (2 ^ ld)) ld ip))).lds j,
       (redirectUp (redirectDown d (u32sub b (2 ^ ld)) ld ip) ((b + 2 ^ ld) % U32) ld ip
          (dirSize (redirectDown d (u32sub b (2 ^ ld)) ld ip))).ids j)
        = if b < 2 ^ ld ∧ j = b + 2 ^ ld then (ld, ip) else (d.lds j, d.ids j) := by
  intro j hj
  have hpos : 0 < (2 : Nat) ^ ld := Nat.pos_pow_of_pos _ (by norm_num)
  have h512 : (2 : Nat) ^ n ≤ 2 ^ 9 := Nat.pow_le_pow_right (by norm_num) hsmall
  have h512v : (2 : Nat) ^ 9 = 512 := by norm_num
  have hU32v : U32 = 4294967296 := by norm_num [U32]
  have hld2n : (2 : Nat) ^ ld ≤ 2 ^ n := Nat.pow_le_pow_right (by norm_num) (by omega)
  have hldu : (2 : Nat) ^ ld ≤ U32 := by omega
  have hbu : b < U32 := by omega
  have hjn : j < 2 ^ (ld + 1) := by rw [hldn]; exact hj
  have hsize : dirSize (redirectDown d (u32sub b (2 ^ ld)) ld ip) = 2 ^ n := by
    rw [dirSize, redirectDown_gd, hgd]
  have hstartu : (b + 2 ^ ld) % U32 = b + 2 ^ ld := Nat.mod_eq_of_lt (by omega)
  have hup := (redirectUp_spec ld ip (dirSize (redirectDown d (u32sub b (2 ^ ld)) ld ip))
      (dirSize (redirectDown d (u32sub b (2 ^ ld)) ld ip)) ((b + 2 ^ ld) % U32)
      (redirectDown d (u32sub b (2 ^ ld)) ld ip) (Nat.sub_le _ _)).2.2 j
  have hdn := (redirectDown_spec ld ip (u32sub b (2 ^ ld)) d).2.2 j
  rcases lt_or_le b (2 ^ ld) with hLO | hHI
  · have hsd : u32sub b (2 ^ ld) = b + (U32 - 2 ^ ld) := by
      rw [u32sub_small b _ hbu hldu, if_neg (by omega)]
    have hsu_mod : ((b + 2 ^ ld) % U32) % 2 ^ ld = b := by
      rw [hstartu, Nat.add_mod_right, Nat.mod_eq_of_lt hLO]
    have hsd_mod : u32sub b (2 ^ ld) % 2 ^ ld = b := by
      rw [hsd, Nat.add_mod, Nat.mod_eq_zero_of_dvd (pow_dvd_u32_sub_pow (by omega)),
        Nat.add_zero, Nat.mod_mod_of_dvd _ (dvd_refl _), Nat.mod_eq_of_lt hLO]
    by_cases hjimg : j = b + 2 ^ ld
    · rw [hup, if_pos ⟨by rw [hsu_mod, hjimg, Nat.add_mod_right, Nat.mod_eq_of_lt hLO],
        by rw [hstartu, hjimg], by rw [hsize]; exact hj⟩, if_pos ⟨hLO, hjimg⟩]
    · rw [hup, if_neg ?hcU, hdn, if_neg ?hcD, if_neg (by tauto)]
      case hcU =>
        rintro ⟨h1, h2, h3⟩
        rw [hsu_mod] at h1
        rw [hstartu] at h2
        rcases mem_class_two b ld j hLO hjn h1 with h | h <;> omega
      case hcD =>
        rintro ⟨h1, h2, h3⟩
        rw [hsd_mod] at h1
        rcases mem_class_two b ld j hLO hjn h1 with h | h <;> omega
  · have hsd : u32sub b (2 ^ ld) = b - 2 ^ ld := by
      rw [u32sub_small b _ hbu hldu, if_pos hHI]
    have hs2 : (2 : Nat) ^ n = 2 * 2 ^ ld := by
      rw [← hldn, pow_succ]
      ring
    rw [hup, if_neg ?hcU3, hdn, if_neg ?hcD3, if_neg (by omega)]
    case hcU3 =>
      rintro ⟨h1, h2, h3⟩
      rw [hstartu] at h2
      rw [hsize] at h3
      omega
    case hcD3 =>
      rintro ⟨h1, h2, h3⟩
      rw [hsd] at h3
      omega

/-- The proceeding branch of `Merge` on the deepest buddy pair (its local
depth equals the global depth): the empty bucket's page is deleted, both
slots of the pair are redirected to the image page at the decremented depth,
every other slot is untouched, and the directory then shrinks while it can. -/
theorem mergeOp_proceed_effect (s : HT) (k v : Nat)
    (hbe : bucketIsEmpty (s.pages (keyToPageId s k)) = true)
    (hld0 : s.dir.lds (keyToDirectoryIndex s k) ≠ 0)
    (hldeq : s.dir.lds (keyToDirectoryIndex s k)
      = s.dir.lds (getSplitImageIndex s.dir (keyToDirectoryIndex s k)))
    (hLgd : s.dir.lds (keyToDirectoryIndex s k) = s.dir.globalDepth)
    (hgd9 : s.dir.globalDepth ≤ MAX_DEPTH)
    (hpz : s.pins (keyToPageId s k) = 0)
    (hdirne : s.dirPageId ≠ keyToPageId s k)
    (hal : s.alloc (keyToPageId s k) = true) :
    ∃ DB pn dn,
      mergeOp s k v = some ({ s with
          dir := shrinkLoop DB
          pins := pn
          dirty := dn
          alloc := upd s.alloc (keyToPageId s k) false },
        [Ev.fetch s.dirPageId, Ev.fetch (keyToPageId s k), Ev.unpin (keyToPageId s k) false,
         Ev.del (keyToPageId s k), Ev.unpin s.dirPageId true]) ∧
      pn = s.pins ∧
      DB.globalDepth = s.dir.globalDepth ∧
      DB.pageId = s.dir.pageId ∧
      (∀ j, j < 2 ^ s.dir.globalDepth →
        (DB.lds j, DB.ids j)
          = if j = keyToDirectoryIndex s k
              ∨ j = getSplitImageIndex s.dir (keyToDirectoryIndex s k)
            then (s.dir.globalDepth - 1,
              s.dir.ids (getSplitImageIndex s.dir (keyToDirectoryIndex s k)))
            else (s.dir.lds j, s.dir.ids j)) := by
  have hblt : keyToDirectoryIndex s k < 2 ^ s.dir.globalDepth := keyToDirectoryIndex_lt s k
  unfold mergeOp
  dsimp only
  simp only [keyToPageId_pinPage, keyToDirectoryIndex_pinPage, pinPage_dir, pinPage_pages,
    pinPage_dirPageId, pinPage_alloc]
  rw [if_neg ?habort]
  case habort =>
    intro hcon
    rcases hcon with h | h | h
    · exact h hbe
    · exact hld0 h
    · exact h hldeq
  rw [unpinPage_eq_some _ _ _ ?hq1]
  case hq1 =>
    simp [pinPage, upd, Ne.symm hdirne]
  dsimp only
  unfold deletePage
  have hq2 : upd (pinPage (pinPage s s.dirPageId) (keyToPageId s k)).pins (keyToPageId s k)
      ((pinPage (pinPage s s.dirPageId) (keyToPageId s k)).pins (keyToPageId s k) - 1)
      (keyToPageId s k) = 0 := by
    simp [pinPage, upd, Ne.symm hdirne, hpz]
  rw [if_pos ⟨hq2, hal⟩]
  dsimp only
  have hne : getSplitImageIndex s.dir (keyToDirectoryIndex s k) ≠ keyToDirectoryIndex s k := by
    unfold getSplitImageIndex
    exact xor_two_pow_ne _ _
  have hq4 : (decrLocalDepth (decrLocalDepth (setBucketPageId s.dir (keyToDirectoryIndex s k)
        (s.dir.ids (getSplitImageIndex s.dir (keyToDirectoryIndex s k))))
        (keyToDirectoryIndex s k))
        (getSplitImageIndex s.dir (keyToDirectoryIndex s k))).ids (keyToDirectoryIndex s k)
      = (decrLocalDepth (decrLocalDepth (setBucketPageId s.dir (keyToDirectoryIndex s k)
        (s.dir.ids (getSplitImageIndex s.dir (keyToDirectoryIndex s k))))
        (keyToDirectoryIndex s k))
        (getSplitImageIndex s.dir (keyToDirectoryIndex s k))).ids
        (getSplitImageIndex s.dir (keyToDirectoryIndex s k)) := by
    simp [decrLocalDepth, setLocalDepth, setBucketPageId, upd, hne]
  have hq5 : (decrLocalDepth (decrLocalDepth (setBucketPageId s.dir (keyToDirectoryIndex s k)
        (s.dir.ids (getSplitImageIndex s.dir (keyToDirectoryIndex s k))))
        (keyToDirectoryIndex s k))
        (getSplitImageIndex s.dir (keyToDirectoryIndex s k))).lds (keyToDirectoryIndex s k)
      = (decrLocalDepth (decrLocalDepth (setBucketPageId s.dir (keyToDirectoryIndex s k)
        (s.dir.ids (getSplitImageIndex s.dir (keyToDirectoryIndex s k))))
        (keyToDirectoryIndex s k))
        (getSplitImageIndex s.dir (keyToDirectoryIndex s k))).lds
        (getSplitImageIndex s.dir (keyToDirectoryIndex s k)) := by
    simp [decrLocalDepth, setLocalDepth, setBucketPageId, upd, hne, Ne.symm hne, hldeq]
  rw [if_pos ⟨hq4, hq5⟩]
  simp only [pinPage_dir]
  have hldv : (decrLocalDepth (decrLocalDepth (setBucketPageId s.dir (keyToDirectoryIndex s k)
        (s.dir.ids (getSplitImageIndex s.dir (keyToDirectoryIndex s k))))
        (keyToDirectoryIndex s k))
        (getSplitImageIndex s.dir (keyToDirectoryIndex s k))).lds
        (getSplitImageIndex s.dir (keyToDirectoryIndex s k))
      = s.dir.globalDepth - 1 := by
    simp [decrLocalDepth, setLocalDepth, setBucketPageId, upd, hne]
    rw [← hldeq, hLgd]
  simp only [hldv]
  rw [unpinPage_eq_some _ _ _ ?hq6]
  case hq6 =>
    simp [pinPage, upd, hdirne, Ne.symm hdirne]
  dsimp only
  refine ⟨_, _, _, rfl, ?hpn, ?hgd, ?hpid, ?hjj⟩
  case hpn =>
    funext j
    rcases eq_or_ne j s.dirPageId with hj1 | hj1 <;>
      rcases eq_or_ne j (keyToPageId s k) with hj2 | hj2 <;>
        simp_all [pinPage, upd] <;> omega
  case hgd =>
    simp only [redirectUp_gd, redirectDown_gd]
    rfl
  case hpid =>
    simp only [redirectUp_pageId, redirectDown_pageId]
    rfl
  case hjj =>
    intro j hj
    have hn1 : 0 < s.dir.globalDepth := by
      rw [hLgd] at hld0
      omega
    have hp1 : 0 < (2 : Nat) ^ (s.dir.globalDepth - 1) :=
      Nat.pos_pow_of_pos _ (by norm_num)
    have hp2 : (2 : Nat) ^ s.dir.globalDepth = 2 * 2 ^ (s.dir.globalDepth - 1) := by
      conv_lhs => rw [show s.dir.globalDepth = (s.dir.globalDepth - 1) + 1 by omega]
      rw [pow_succ]
      ring
    rw [mergeLoops_pt _ _ _ _ s.dir.globalDepth ?hg ?hl hblt ?hs j hj]
    case hg => rfl
    case hl => omega
    case hs => exact hgd9
    have hmv : getSplitImageIndex s.dir (keyToDirectoryIndex s k)
        = keyToDirectoryIndex s k ^^^ 2 ^ (s.dir.globalDepth - 1) := by
      unfold getSplitImageIndex
      rw [hLgd]
    rcases lt_or_le (keyToDirectoryIndex s k) (2 ^ (s.dir.globalDepth - 1)) with hLO | hHI
    · have hm : getSplitImageIndex s.dir (keyToDirectoryIndex s k)
          = keyToDirectoryIndex s k + 2 ^ (s.dir.globalDepth - 1) := by
        rw [hmv, xor_two_pow_of_lt hLO]
      by_cases hjb : j = keyToDirectoryIndex s k
      · subst hjb
        rw [if_neg (by rintro ⟨-, habs⟩; omega), if_pos (Or.inl rfl), Prod.mk.injEq]
        constructor
        · simp [decrLocalDepth, setLocalDepth, setBucketPageId, upd, Ne.symm hne, hLgd]
        · simp [decrLocalDepth, setLocalDepth, setBucketPageId, upd]
      · by_cases hjm : j = getSplitImageIndex s.dir (keyToDirectoryIndex s k)
        · subst hjm
          rw [if_pos ⟨hLO, hm⟩, if_pos (Or.inr rfl)]
        · rw [if_neg (by rintro ⟨-, habs⟩; rw [← hm] at habs; exact hjm habs),
            if_neg (by tauto), Prod.mk.injEq]
          constructor
          · simp [decrLocalDepth, setLocalDepth, setBucketPageId, upd, hjb, hjm]
          · simp [decrLocalDepth, setLocalDepth, setBucketPageId, upd, hjb, hjm]
    · have hbsub : keyToDirectoryIndex s k - 2 ^ (s.dir.globalDepth - 1)
          < 2 ^ (s.dir.globalDepth - 1) := by omega
      have hm : getSplitImageIndex s.dir (keyToDirectoryIndex s k)
          = keyToDirectoryIndex s k - 2 ^ (s.dir.globalDepth - 1) := by
        rw [hmv]
        conv_lhs => rw [show keyToDirectoryIndex s k
          = (keyToDirectoryIndex s k - 2 ^ (s.dir.globalDepth - 1))
            + 2 ^ (s.dir.globalDepth - 1) by omega]
        rw [← xor_two_pow_of_lt hbsub, Nat.xor_assoc, Nat.xor_self, Nat.xor_zero]
      rw [if_neg (by rintro ⟨habs, -⟩; omega)]
      by_cases hjb : j = keyToDirectoryIndex s k
      · subst hjb
        rw [if_pos (Or.inl rfl), Prod.mk.injEq]
        constructor
        · simp [decrLocalDepth, setLocalDepth, setBucketPageId, upd, Ne.symm hne, hLgd]
        · simp [decrLocalDepth, setLocalDepth, setBucketPageId, upd]
      · by_cases hjm : j = getSplitImageIndex s.dir (keyToDirectoryIndex s k)
        · subst hjm
          rw [if_pos (Or.inr rfl), Prod.mk.injEq]
          constructor
          · simp [decrLocalDepth, setLocalDepth, setBucketPageId, upd, hne, ← hldeq, hLgd]
          · simp [decrLocalDepth, setLocalDepth, setBucketPageId, upd, hne]
        · rw [if_neg (by tauto), Prod.mk.injEq]
          constructor
          · simp [decrLocalDepth, setLocalDepth, setBucketPageId, upd, hjb, hjm]
          · simp [decrLocalDepth, setLocalDepth, setBucketPageId, upd, hjb, hjm]


/-- `shrinkLoop` only lowers the global depth: the slot arrays and the page id
are untouched, and afterwards the directory cannot shrink further. -/
theorem shrinkLoop_spec : ∀ (d : DirPage),
    (shrinkLoop d).ids = d.ids ∧ (shrinkLoop d).lds = d.lds ∧
    (shrinkLoop d).pageId = d.pageId ∧ (shrinkLoop d).globalDepth ≤ d.globalDepth ∧
    canShrink (shrinkLoop d) = false := by
  suffices h : ∀ n (d : DirPage), d.globalDepth = n →
      (shrinkLoop d).ids = d.ids ∧ (shrinkLoop d).lds = d.lds ∧
      (shrinkLoop d).pageId = d.pageId ∧ (shrinkLoop d).globalDepth ≤ d.globalDepth ∧
      canShrink (shrinkLoop d) = false by
    intro d
    exact h d.globalDepth d rfl
  intro n
  induction n using Nat.strong_induction_on with
  | _ n IH =>
    intro d hn
    rw [shrinkLoop]
    split
    · rename_i h
      have h0 : 0 < d.globalDepth := by
        simp only [canShrink, Bool.and_eq_true, decide_eq_true_eq] at h
        exact h.1
      obtain ⟨hi, hl, hp, hg, hc⟩ := IH (d.globalDepth - 1) (by omega) (decrGlobalDepth d) rfl
      refine ⟨hi, hl, hp, ?_, hc⟩
      calc (shrinkLoop (decrGlobalDepth d)).globalDepth
          ≤ (decrGlobalDepth d).globalDepth := hg
        _ ≤ d.globalDepth := Nat.sub_le _ _
    · rename_i h
      refine ⟨rfl, rfl, rfl, le_refl _, ?_⟩
      rwa [Bool.not_eq_true] at h


/-! ## Bucket capacity bookkeeping -/

theorem placeFirstFree_length (k v : Nat) :
    ∀ (b b2 : Bucket), placeFirstFree b k v = some b2 → b2.length = b.length := by
  intro b
  induction b with
  | nil => intro b2 h; simp [placeFirstFree] at h
  | cons sl rest ih =>
    intro b2 h
    unfold placeFirstFree at h
    split at h
    · rcases hr : placeFirstFree rest k v with _ | r2
      · rw [hr] at h; simp at h
      · rw [hr] at h
        simp only [Option.map_some'] at h
        obtain rfl := Option.some_inj.mp h
        simp [ih r2 hr]
    · obtain rfl := Option.some_inj.mp h
      simp

theorem placeFirstFree_freeCount (k v : Nat) :
    ∀ (b b2 : Bucket), placeFirstFree b k v = some b2 → freeCount b2 + 1 = freeCount b := by
  intro b
  induction b with
  | nil => intro b2 h; simp [placeFirstFree] at h
  | cons sl rest ih =>
    intro b2 h
    unfold placeFirstFree at h
    split at h
    · rename_i hr
      rcases hp : placeFirstFree rest k v with _ | r2
      · rw [hp] at h; simp at h
      · rw [hp] at h
        simp only [Option.map_some'] at h
        obtain rfl := Option.some_inj.mp h
        simp only [freeCount, List.filter, hr]
        have := ih r2 hp
        simp only [freeCount] at this
        simpa [hr] using this
    · rename_i hr
      obtain rfl := Option.some_inj.mp h
      simp [freeCount, List.filter, hr]

theorem bucketIsFull_eq_false_iff (b : Bucket) :
    bucketIsFull b = false ↔ 0 < freeCount b := by
  rw [freeCount]
  constructor
  · intro h
    rcases List.all_eq_false.mp (by rw [← h]; rfl) with ⟨sl, hm, hns⟩
    have : sl ∈ b.filter (fun sl => !sl.readable) :=
      List.mem_filter.mpr ⟨hm, by simpa using hns⟩
    exact List.length_pos.mpr (List.ne_nil_of_mem this)
  · intro h
    rcases List.exists_mem_of_length_pos h with ⟨sl, hm⟩
    rcases List.mem_filter.mp hm with ⟨hmb, hns⟩
    refine List.all_eq_false.mpr ⟨sl, hmb, ?_⟩
    simpa using hns

theorem bucketInsert_length (b : Bucket) (k v : Nat) :
    (bucketInsert b k v).1.length = b.length := by
  unfold bucketInsert
  split
  · rfl
  · rcases hp : placeFirstFree b k v with _ | b2
    · rfl
    · simpa using placeFirstFree_length k v b b2 hp

theorem bucketInsert_freeCount_of_true (b b2 : Bucket) (k v : Nat)
    (h : bucketInsert b k v = (b2, true)) : freeCount b2 + 1 = freeCount b := by
  unfold bucketInsert at h
  split at h
  · simp at h
  · rcases hp : placeFirstFree b k v with _ | b3 <;> rw [hp] at h
    · simp at h
    · simp only [Prod.mk.injEq] at h
      obtain ⟨h1, -⟩ := h
      subst h1
      exact placeFirstFree_freeCount k v b _ hp

theorem bucketInsert_succeeds (b : Bucket) (k v : Nat)
    (hnp : bucketHasPair b k v = false) (hnf : bucketIsFull b = false) :
    ∃ b2, bucketInsert b k v = (b2, true) := by
  unfold bucketInsert
  rw [hnp]
  obtain ⟨b2, hb2⟩ := placeFirstFree_of_not_full b k v hnf
  rw [hb2]
  exact ⟨b2, rfl⟩

theorem clearFirstMatch_length (k v : Nat) :
    ∀ (b b2 : Bucket), clearFirstMatch b k v = some b2 → b2.length = b.length := by
  intro b
  induction b with
  | nil => intro b2 h; simp [clearFirstMatch] at h
  | cons sl rest ih =>
    intro b2 h
    unfold clearFirstMatch at h
    split at h
    · obtain rfl := Option.some_inj.mp h
      simp
    · rcases hp : clearFirstMatch rest k v with _ | r2
      · rw [hp] at h; simp at h
      · rw [hp] at h
        simp only [Option.map_some'] at h
        obtain rfl := Option.some_inj.mp h
        simp [ih r2 hp]

theorem bucketRemove_length (b : Bucket) (k v : Nat) :
    (bucketRemove b k v).1.length = b.length := by
  unfold bucketRemove
  rcases hp : clearFirstMatch b k v with _ | b2
  · rfl
  · simpa using clearFirstMatch_length k v b b2 hp

theorem bucketReset_length (b : Bucket) : (bucketReset b).length = b.length := by
  simp [bucketReset]

theorem emptyBucket_length (bas : Nat) : (emptyBucket bas).length = bas := by
  simp [emptyBucket]

theorem freeCount_reset (b : Bucket) : freeCount (bucketReset b) = b.length := by
  induction b with
  | nil => rfl
  | cons sl rest ih =>
    simp only [bucketReset, List.map, freeCount, List.filter] at ih ⊢
    simpa using ih

theorem freeCount_empty (bas : Nat) : freeCount (emptyBucket bas) = bas := by
  induction bas with
  | zero => rfl
  | succ n ih =>
    simp only [emptyBucket, List.replicate, freeCount, List.filter] at ih ⊢
    simpa using ih

theorem getKVPairs_length_le (b : Bucket) : (getKVPairs b).length ≤ b.length := by
  rw [getKVPairs, List.length_map]
  exact List.length_filter_le _ _

theorem getKVPairs_length_of_full (b : Bucket) (h : bucketIsFull b = true) :
    (getKVPairs b).length = b.length := by
  rw [getKVPairs, List.length_map]
  have : b.filter (fun sl => sl.readable) = b := by
    refine List.filter_eq_self.mpr ?_
    intro sl hm
    exact List.all_eq_true.mp h sl hm
  rw [this]

/-- The rehash loop completes whenever every pair targets one of the two
buckets, the pairs are duplicate-free and absent from the accumulators, and
each accumulator has enough free slots. -/
theorem rehashPairs_total (d : DirPage) (hashF : Nat → Nat) (imgId bktId : Nat) :
    ∀ (prs : List (Nat × Nat)) (accB accI : Bucket),
      (∀ p ∈ prs, rehashTarget d hashF imgId p.1 = imgId
        ∨ rehashTarget d hashF imgId p.1 = bktId) →
      prs.Nodup →
      (∀ p ∈ prs, p ∉ getKVPairs accB ∧ p ∉ getKVPairs accI) →
      prs.length ≤ freeCount accB → prs.length ≤ freeCount accI →
      ∃ bB bI, rehashPairs d hashF imgId bktId accB accI prs = some (bB, bI) := by
  intro prs
  induction prs with
  | nil =>
    intro accB accI _ _ _ _ _
    exact ⟨accB, accI, rfl⟩
  | cons pr rest ih =>
    intro accB accI htgt hnd hmem hfB hfI
    rcases pr with ⟨k, v⟩
    rw [rehashPairs]
    have ht0 : (hashF k % U32) &&& localDepthMask d imgId = imgId
        ∨ (hashF k % U32) &&& localDepthMask d imgId = bktId :=
      htgt (k, v) (List.mem_cons_self _ _)
    rw [if_pos ht0]
    by_cases himg : (hashF k % U32) &&& localDepthMask d imgId = imgId
    · rw [if_pos himg]
      have hnp : bucketHasPair accI k v = false := by
        rw [← Bool.not_eq_true, hasPair_iff_mem]
        exact (hmem (k, v) (List.mem_cons_self _ _)).2
      have hnf : bucketIsFull accI = false :=
        (bucketIsFull_eq_false_iff accI).mpr (by simp at hfI; omega)
      obtain ⟨b2, hb2⟩ := bucketInsert_succeeds accI k v hnp hnf
      rw [hb2]
      have hspec := bucketInsert_success_spec accI k v b2 hb2
      have hfree := bucketInsert_freeCount_of_true accI b2 k v hb2
      refine ih accB b2 (fun p hp => htgt p (List.mem_cons_of_mem _ hp))
        hnd.of_cons ?_ ?_ ?_
      · intro p hp
        refine ⟨(hmem p (List.mem_cons_of_mem _ hp)).1, ?_⟩
        intro hc
        rcases p with ⟨k2, v2⟩
        rcases (hspec.1 k2 v2).mp hc with hc2 | ⟨rfl, rfl⟩
        · exact (hmem (k2, v2) (List.mem_cons_of_mem _ hp)).2 hc2
        · exact (List.nodup_cons.mp hnd).1 hp
      · simp at hfB
        omega
      · simp at hfI
        omega
    · rw [if_neg himg]
      have hbkt : (hashF k % U32) &&& localDepthMask d imgId = bktId := by
        rcases ht0 with h | h
        · exact absurd h himg
        · exact h
      have hnp : bucketHasPair accB k v = false := by
        rw [← Bool.not_eq_true, hasPair_iff_mem]
        exact (hmem (k, v) (List.mem_cons_self _ _)).1
      have hnf : bucketIsFull accB = false :=
        (bucketIsFull_eq_false_iff accB).mpr (by simp at hfB; omega)
      obtain ⟨b2, hb2⟩ := bucketInsert_succeeds accB k v hnp hnf
      rw [hb2]
      have hspec := bucketInsert_success_spec accB k v b2 hb2
      have hfree := bucketInsert_freeCount_of_true accB b2 k v hb2
      refine ih b2 accI (fun p hp => htgt p (List.mem_cons_of_mem _ hp))
        hnd.of_cons ?_ ?_ ?_
      · intro p hp
        refine ⟨?_, (hmem p (List.mem_cons_of_mem _ hp)).2⟩
        intro hc
        rcases p with ⟨k2, v2⟩
        rcases (hspec.1 k2 v2).mp hc with hc2 | ⟨rfl, rfl⟩
        · exact (hmem (k2, v2) (List.mem_cons_of_mem _ hp)).1 hc2
        · exact (List.nodup_cons.mp hnd).1 hp
      · simp at hfB
        omega
      · simp at hfI
        omega

/-- The rehash loop never changes the physical size of either bucket. -/
theorem rehashPairs_lengths (d : DirPage) (hashF : Nat → Nat) (imgId bktId : Nat) :
    ∀ (prs : List (Nat × Nat)) (accB accI bB bI : Bucket),
      rehashPairs d hashF imgId bktId accB accI prs = some (bB, bI) →
      bB.length = accB.length ∧ bI.length = accI.length := by
  intro prs
  induction prs with
  | nil =>
    intro accB accI bB bI h
    simp only [rehashPairs, Option.some_inj, Prod.mk.injEq] at h
    obtain ⟨rfl, rfl⟩ := h
    exact ⟨rfl, rfl⟩
  | cons pr rest ih =>
    intro accB accI bB bI h
    rcases pr with ⟨k, v⟩
    rw [rehashPairs] at h
    split at h
    · split at h
      · rcases hb : bucketInsert accI k v with ⟨b2, r⟩
        rw [hb] at h
        rcases r with _ | _
        · simp at h
        · have hlen : b2.length = accI.length := by
            have := bucketInsert_length accI k v
            rw [hb] at this
            exact this
          obtain ⟨h1, h2⟩ := ih accB b2 bB bI h
          exact ⟨h1, by rw [h2, hlen]⟩
      · rcases hb : bucketInsert accB k v with ⟨b2, r⟩
        rw [hb] at h
        rcases r with _ | _
        · simp at h
        · have hlen : b2.length = accB.length := by
            have := bucketInsert_length accB k v
            rw [hb] at this
            exact this
          obtain ⟨h1, h2⟩ := ih b2 accI bB bI h
          exact ⟨by rw [h1, hlen], h2⟩
    · simp at h


/-! ## Spine structure lemmas -/

theorem exists_first_diff {a b : Nat} (h : a ≠ b) :
    ∃ t, a % 2 ^ t = b % 2 ^ t ∧ a % 2 ^ (t + 1) ≠ b % 2 ^ (t + 1) := by
  have hex : ∃ t, a % 2 ^ (t + 1) ≠ b % 2 ^ (t + 1) := by
    refine ⟨a + b, ?_⟩
    have ha : a < 2 ^ (a + b + 1) :=
      lt_of_lt_of_le (Nat.lt_two_pow a) (Nat.pow_le_pow_right (by norm_num) (by omega))
    have hb : b < 2 ^ (a + b + 1) :=
      lt_of_lt_of_le (Nat.lt_two_pow b) (Nat.pow_le_pow_right (by norm_num) (by omega))
    rw [Nat.mod_eq_of_lt ha, Nat.mod_eq_of_lt hb]
    exact h
  refine ⟨Nat.find hex, ?_, Nat.find_spec hex⟩
  rcases Nat.eq_zero_or_pos (Nat.find hex) with h0 | h0
  · rw [h0]
    simp [Nat.mod_one]
  · have hmin := Nat.find_min hex (show Nat.find hex - 1 < Nat.find hex by omega)
    push_neg at hmin
    rwa [Nat.sub_add_cancel h0] at hmin

theorem xor_two_pow_mod_succ_eq {j p t : Nat} (h1 : j % 2 ^ t = p % 2 ^ t)
    (h2 : j % 2 ^ (t + 1) ≠ p % 2 ^ (t + 1)) :
    (j ^^^ 2 ^ t) % 2 ^ (t + 1) = p % 2 ^ (t + 1) := by
  have hbit : j.testBit t ≠ p.testBit t := by
    intro hb
    apply h2
    rw [mod_pow_eq_iff_testBit]
    intro i hi
    rcases Nat.lt_or_ge i t with hit | hit
    · exact mod_pow_eq_iff_testBit.mp h1 i hit
    · have hit2 : i = t := by omega
      rw [hit2]
      exact hb
  rw [mod_pow_eq_iff_testBit]
  intro i hi
  rcases Nat.lt_or_ge i t with hit | hit
  · rw [Nat.testBit_xor, Nat.testBit_two_pow_of_ne (by omega)]
    simpa using mod_pow_eq_iff_testBit.mp h1 i hit
  · have hit2 : i = t := by omega
    subst hit2
    rw [Nat.testBit_xor, Nat.testBit_two_pow_self]
    rcases hjb : j.testBit i <;> rcases hpb : p.testBit i <;> simp_all

theorem spinePath_lds_of_diff {d : DirPage} {p : Nat} (hs : spinePath d p)
    {j t : Nat} (hj : j < dirSize d) (h1 : j % 2 ^ t = p % 2 ^ t)
    (h2 : j % 2 ^ (t + 1) ≠ p % 2 ^ (t + 1)) : d.lds j = t + 1 :=
  hs.2.2 j hj t h1 h2

/-- The first differing bit of any slot with the path lies below the global
depth. -/
theorem first_diff_lt_gd {d : DirPage} {p : Nat} (hs : spinePath d p)
    {j t : Nat} (hj : j < dirSize d) (h1 : j % 2 ^ t = p % 2 ^ t)
    (h2 : j % 2 ^ (t + 1) ≠ p % 2 ^ (t + 1)) : t < d.globalDepth := by
  by_contra hge
  push_neg at hge
  have hj2 : j < 2 ^ t :=
    lt_of_lt_of_le hj (show dirSize d ≤ 2 ^ t from Nat.pow_le_pow_right (by norm_num) hge)
  have hp2 : p < 2 ^ t :=
    lt_of_lt_of_le hs.1 (show dirSize d ≤ 2 ^ t from Nat.pow_le_pow_right (by norm_num) hge)
  rw [Nat.mod_eq_of_lt hj2, Nat.mod_eq_of_lt hp2] at h1
  exact h2 (by rw [h1])

theorem spinePath_lds_le {d : DirPage} {p : Nat} (hs : spinePath d p) :
    ∀ j, j < dirSize d → d.lds j ≤ d.globalDepth := by
  intro j hj
  by_cases hjp : j = p
  · rw [hjp, hs.2.1]
  · obtain ⟨t, h1, h2⟩ := exists_first_diff hjp
    rw [spinePath_lds_of_diff hs hj h1 h2]
    exact first_diff_lt_gd hs hj h1 h2

theorem spinePath_lds_congr {d : DirPage} {p : Nat} (hs : spinePath d p) :
    ∀ j j', j < dirSize d → j' < dirSize d →
      j' % 2 ^ d.lds j = j % 2 ^ d.lds j → d.lds j' = d.lds j := by
  intro j j' hj hj' hmod
  by_cases hjp : j = p
  · subst hjp
    rw [hs.2.1] at hmod ⊢
    have hj'j : j' = j := by
      rwa [Nat.mod_eq_of_lt (show j' < 2 ^ d.globalDepth from hj'),
        Nat.mod_eq_of_lt (show j < 2 ^ d.globalDepth from hj)] at hmod
    rw [hj'j, hs.2.1]
  · obtain ⟨t, h1, h2⟩ := exists_first_diff hjp
    have hL := spinePath_lds_of_diff hs hj h1 h2
    rw [hL] at hmod
    have h1' : j' % 2 ^ t = p % 2 ^ t := by
      rw [← h1]
      exact mod_pow_agree_down (Nat.le_succ t) hmod
    have h2' : j' % 2 ^ (t + 1) ≠ p % 2 ^ (t + 1) := by
      rw [hmod]
      exact h2
    rw [spinePath_lds_of_diff hs hj' h1' h2', hL]

/-- On the spine, a slot whose local depth is nonzero and agrees with its
split image's local depth sits at the global depth: the deepest pair is the
only equal-depth buddy pair. -/
theorem spinePath_merge_deep {d : DirPage} {p : Nat} (hs : spinePath d p) :
    ∀ j, j < dirSize d → d.lds j ≠ 0 →
      d.lds j = d.lds (getSplitImageIndex d j) → d.lds j = d.globalDepth := by
  intro j hj hne heq
  by_cases hjp : j = p
  · rw [hjp, hs.2.1]
  · obtain ⟨t, h1, h2⟩ := exists_first_diff hjp
    have hL := spinePath_lds_of_diff hs hj h1 h2
    have htgd := first_diff_lt_gd hs hj h1 h2
    have himg : getSplitImageIndex d j = j ^^^ 2 ^ t := by
      rw [getSplitImageIndex, hL, Nat.add_sub_cancel]
    have himgagree : (j ^^^ 2 ^ t) % 2 ^ (t + 1) = p % 2 ^ (t + 1) :=
      xor_two_pow_mod_succ_eq h1 h2
    have himglt : j ^^^ 2 ^ t < dirSize d := xor_two_pow_lt hj htgd
    by_cases himgp : j ^^^ 2 ^ t = p
    · rw [himg, himgp, hs.2.1] at heq
      have := first_diff_lt_gd hs hj h1 h2
      omega
    · obtain ⟨t2, h21, h22⟩ := exists_first_diff himgp
      have hL2 := spinePath_lds_of_diff hs himglt h21 h22
      rw [himg, hL2] at heq
      have ht2 : t + 1 ≤ t2 := by
        by_contra hlt
        push_neg at hlt
        exact h22 (mod_pow_agree_down (by omega) himgagree)
      omega

/-! ## Non-growth splits abort -/

/-- The rehash target computed against a directory whose slots all have local
depth `m` is just the low `m` bits of the hash. -/
theorem rehashTarget_mkLdDir (m : Nat) (hashF : Nat → Nat) (imgId k : Nat) :
    rehashTarget (mkLdDir m) hashF imgId k = (hashF k % U32) % 2 ^ m := by
  rw [rehashTarget, localDepthMask]
  show (hashF k % U32) &&& (2 ^ m - 1) = (hashF k % U32) % 2 ^ m
  exact Nat.and_pow_two_sub_one_eq_mod _ m

/-- Any slot at the global depth can serve as the spine path. -/
theorem spinePath_at_deep {d : DirPage} {p b : Nat} (hs : spinePath d p)
    (hb : b < dirSize d) (hbd : d.lds b = d.globalDepth) : spinePath d b := by
  by_cases hbp : b = p
  · subst hbp
    exact hs
  · obtain ⟨tb, hb1, hb2⟩ := exists_first_diff hbp
    have htb : d.lds b = tb + 1 := spinePath_lds_of_diff hs hb hb1 hb2
    have htbeq : tb + 1 = d.globalDepth := by rw [← htb, hbd]
    refine ⟨hb, hbd, ?_⟩
    intro j hj t h1 h2
    have htgd : t < d.globalDepth := by
      by_contra hge
      push_neg at hge
      have hj2 : j < 2 ^ t :=
        lt_of_lt_of_le hj (show dirSize d ≤ 2 ^ t from Nat.pow_le_pow_right (by norm_num) hge)
      have hb3 : b < 2 ^ t :=
        lt_of_lt_of_le hb (show dirSize d ≤ 2 ^ t from Nat.pow_le_pow_right (by norm_num) hge)
      rw [Nat.mod_eq_of_lt hj2, Nat.mod_eq_of_lt hb3] at h1
      exact h2 (by rw [h1])
    rcases Nat.lt_or_ge t tb with hlt | hge
    · have hbp1 : b % 2 ^ t = p % 2 ^ t := mod_pow_agree_down (by omega) hb1
      have hbp2 : b % 2 ^ (t + 1) = p % 2 ^ (t + 1) := mod_pow_agree_down (by omega) hb1
      exact hs.2.2 j hj t (by rw [h1, hbp1]) (by rw [← hbp2]; exact h2)
    · have hteq : t = tb := by omega
      subst hteq
      by_cases hjp : j = p
      · rw [hjp, hs.2.1]
        omega
      · have hjp1 : j % 2 ^ t = p % 2 ^ t := by rw [h1, hb1]
        have hj2 : j < 2 ^ (t + 1) := by rw [htbeq]; exact hj
        have hp2 : p < 2 ^ (t + 1) := by rw [htbeq]; exact hs.1
        have hjp2 : j % 2 ^ (t + 1) ≠ p % 2 ^ (t + 1) := by
          rw [Nat.mod_eq_of_lt hj2, Nat.mod_eq_of_lt hp2]
          exact hjp
        exact hs.2.2 j hj t hjp1 hjp2

/-- A split on a full bucket whose local depth is strictly below the global
depth always aborts: the image slot at the incremented depth still carries
the un-incremented local depth, so the assertion at source line 157 fails
(or the fresh page id collides and the line 155 assertion fails first). -/
theorem splitInsertF_nongrowth_none (fuel : Nat) (s : HT) (k v : Nat) (p : Nat)
    (hs : spinePath s.dir p)
    (hcls : ∀ j j', j < dirSize s.dir → j' < dirSize s.dir →
      j' % 2 ^ s.dir.lds j = j % 2 ^ s.dir.lds j → s.dir.ids j' = s.dir.ids j)
    (hlt : s.dir.lds (keyToDirectoryIndex s k) < s.dir.globalDepth)
    (hfull : bucketIsFull (s.pages (keyToPageId s k)) = true) :
    splitInsertF fuel s k v = none := by
  rcases fuel with _ | f
  · rfl
  rw [splitInsertF]
  dsimp only
  simp only [keyToPageId_pinPage, keyToDirectoryIndex_pinPage, pinPage_dir, pinPage_pages,
    pinPage_dirPageId, pinPage_nextPid, pinPage_hashFn, pinPage_bas, pinPage_alloc]
  rw [if_pos hfull]
  have hblt : keyToDirectoryIndex s k < 2 ^ s.dir.globalDepth := keyToDirectoryIndex_lt s k
  have hgrow : ¬ (incrLocalDepth s.dir (keyToDirectoryIndex s k)).globalDepth
      < (incrLocalDepth s.dir (keyToDirectoryIndex s k)).lds (keyToDirectoryIndex s k) := by
    show ¬ s.dir.globalDepth < upd s.dir.lds (keyToDirectoryIndex s k)
      (s.dir.lds (keyToDirectoryIndex s k) + 1) (keyToDirectoryIndex s k)
    rw [upd_self]
    omega
  rw [if_neg hgrow]
  dsimp only
  have hldb : (incrLocalDepth s.dir (keyToDirectoryIndex s k)).lds (keyToDirectoryIndex s k)
      = s.dir.lds (keyToDirectoryIndex s k) + 1 := by
    simp [incrLocalDepth, setLocalDepth, upd]
  have himg : getSplitImageIndex (incrLocalDepth s.dir (keyToDirectoryIndex s k))
        (keyToDirectoryIndex s k)
      = keyToDirectoryIndex s k ^^^ 2 ^ s.dir.lds (keyToDirectoryIndex s k) := by
    rw [getSplitImageIndex, hldb, Nat.add_sub_cancel]
  rw [himg]
  have himglt : keyToDirectoryIndex s k ^^^ 2 ^ s.dir.lds (keyToDirectoryIndex s k)
      < 2 ^ s.dir.globalDepth := xor_two_pow_lt hblt hlt
  have himgne : keyToDirectoryIndex s k ^^^ 2 ^ s.dir.lds (keyToDirectoryIndex s k)
      ≠ keyToDirectoryIndex s k := xor_two_pow_ne _ _
  have hids : (incrLocalDepth s.dir (keyToDirectoryIndex s k)).ids
        (keyToDirectoryIndex s k ^^^ 2 ^ s.dir.lds (keyToDirectoryIndex s k))
      = keyToPageId s k := by
    show s.dir.ids (keyToDirectoryIndex s k ^^^ 2 ^ s.dir.lds (keyToDirectoryIndex s k))
      = s.dir.ids (keyToDirectoryIndex s k)
    exact hcls (keyToDirectoryIndex s k) _ hblt himglt
      (xor_two_pow_mod_self _ _)
  rw [if_pos hids]
  simp only [newPage]
  by_cases hne : s.nextPid ≠ keyToPageId s k
  · rw [if_pos hne]
    have hldimg : (incrLocalDepth s.dir (keyToDirectoryIndex s k)).lds
          (keyToDirectoryIndex s k ^^^ 2 ^ s.dir.lds (keyToDirectoryIndex s k))
        = s.dir.lds (keyToDirectoryIndex s k) := by
      have h1 : (incrLocalDepth s.dir (keyToDirectoryIndex s k)).lds
            (keyToDirectoryIndex s k ^^^ 2 ^ s.dir.lds (keyToDirectoryIndex s k))
          = s.dir.lds (keyToDirectoryIndex s k ^^^ 2 ^ s.dir.lds (keyToDirectoryIndex s k)) := by
        simp [incrLocalDepth, setLocalDepth, upd, himgne]
      rw [h1]
      exact spinePath_lds_congr hs (keyToDirectoryIndex s k) _ hblt himglt
        (xor_two_pow_mod_self _ _)
    rw [if_neg ?h157]
    case h157 =>
      show ¬ (setBucketPageId _ _ _).lds (keyToDirectoryIndex s k)
        = (setBucketPageId _ _ _).lds
          (keyToDirectoryIndex s k ^^^ 2 ^ s.dir.lds (keyToDirectoryIndex s k))
      show ¬ (incrLocalDepth s.dir (keyToDirectoryIndex s k)).lds (keyToDirectoryIndex s k)
        = (incrLocalDepth s.dir (keyToDirectoryIndex s k)).lds
          (keyToDirectoryIndex s k ^^^ 2 ^ s.dir.lds (keyToDirectoryIndex s k))
      rw [hldb, hldimg]
      omega
  · rw [if_neg (by simpa using hne)]

/-! ## Invariant preservation: growth split -/

theorem hasPair_congr (A B : Bucket) (k v : Nat)
    (h : (k, v) ∈ getKVPairs A ↔ (k, v) ∈ getKVPairs B) :
    bucketHasPair A k v = bucketHasPair B k v := by
  by_cases hA : bucketHasPair A k v = true
  · rw [hA]
    symm
    rw [hasPair_iff_mem]
    exact h.mp ((hasPair_iff_mem A k v).mp hA)
  · have hB : ¬ bucketHasPair B k v = true := fun hc =>
      hA ((hasPair_iff_mem A k v).mpr (h.mpr ((hasPair_iff_mem B k v).mp hc)))
    rw [Bool.not_eq_true] at hA hB
    rw [hA, hB]

theorem mod_pow_mod_pow (a : Nat) {m n : Nat} (h : m ≤ n) : (a % 2 ^ n) % 2 ^ m = a % 2 ^ m :=
  Nat.mod_mod_of_dvd a (pow_dvd_pow 2 h)

theorem add_pow_mod_pow (b gd t : Nat) (h : t ≤ gd) : (b + 2 ^ gd) % 2 ^ t = b % 2 ^ t := by
  rw [Nat.add_mod, Nat.mod_eq_zero_of_dvd (pow_dvd_pow 2 h), Nat.add_zero,
    Nat.mod_mod_of_dvd _ (dvd_refl _)]

/-- A growth split (the routed slot sits at the global depth, so the
directory doubles) preserves the state invariant, and the rewritten pair of
buckets holds exactly the pairs the old bucket held: the table's contents
are unchanged. -/
theorem split_growth_inv (s : HT) (k : Nat) (bktB imgB : Bucket) (D9 : DirPage)
    (dn : Nat → Bool) (h : Inv s)
    (hfull : bucketIsFull (s.pages (keyToPageId s k)) = true)
    (hL : s.dir.lds (keyToDirectoryIndex s k) = s.dir.globalDepth)
    (hMD : s.dir.globalDepth < MAX_DEPTH)
    (hreh : rehashPairs (mkLdDir (s.dir.globalDepth + 1)) s.hashFn
        (keyToDirectoryIndex s k + 2 ^ s.dir.globalDepth) (keyToDirectoryIndex s k)
        (bucketReset (s.pages (keyToPageId s k))) (emptyBucket s.bas)
        (getKVPairs (s.pages (keyToPageId s k))) = some (bktB, imgB))
    (hD9gd : D9.globalDepth = s.dir.globalDepth + 1)
    (hD9pt : ∀ j, j < 2 ^ (s.dir.globalDepth + 1) →
        D9.lds j = (if j = keyToDirectoryIndex s k
                       ∨ j = keyToDirectoryIndex s k + 2 ^ s.dir.globalDepth
                    then s.dir.globalDepth + 1
                    else s.dir.lds (j % 2 ^ s.dir.globalDepth)) ∧
        D9.ids j = (if j = keyToDirectoryIndex s k then keyToPageId s k
                    else if j = keyToDirectoryIndex s k + 2 ^ s.dir.globalDepth then s.nextPid
                    else s.dir.ids (j % 2 ^ s.dir.globalDepth))) :
    ∀ s2 : HT, s2 = { s with
        dir := D9
        pages := upd (upd (upd s.pages s.nextPid (emptyBucket s.bas)) (keyToPageId s k) bktB)
          s.nextPid imgB
        nextPid := s.nextPid + 1
        pins := s.pins
        dirty := dn
        alloc := upd s.alloc s.nextPid true } →
      Inv s2 ∧ ∀ k2 v2, tableHas s2 k2 v2 = tableHas s k2 v2 := by
  intro s2 hs2
  obtain ⟨gd, hgd⟩ : ∃ gd, s.dir.globalDepth = gd := ⟨_, rfl⟩
  obtain ⟨b, hb⟩ : ∃ b, keyToDirectoryIndex s k = b := ⟨_, rfl⟩
  obtain ⟨bpid, hbpid⟩ : ∃ x, keyToPageId s k = x := ⟨_, rfl⟩
  obtain ⟨np, hnp⟩ : ∃ x, s.nextPid = x := ⟨_, rfl⟩
  have e_dir : s2.dir = D9 := by rw [hs2]
  have e_pages : s2.pages
      = upd (upd (upd s.pages np (emptyBucket s.bas)) bpid bktB) np imgB := by
    rw [hs2, hbpid, hnp]
  have e_np : s2.nextPid = np + 1 := by rw [hs2, hnp]
  have e_pins : s2.pins = s.pins := by rw [hs2]
  have e_alloc : s2.alloc = upd s.alloc np true := by rw [hs2, hnp]
  have e_bas : s2.bas = s.bas := by rw [hs2]
  have e_hashOf : ∀ x, hashOf s2 x = hashOf s x := by
    intro x
    rw [hashOf, hashOf, hs2]
  have e_dpid : s2.dirPageId = s.dirPageId := by rw [hs2]
  simp only [hgd, hb, hbpid, hnp] at hfull hL hreh hD9gd hD9pt hMD
  have hbpid2 : s.dir.ids b = bpid := by rw [← hbpid, keyToPageId, hb]
  have hpow : (2 : Nat) ^ (gd + 1) = 2 * 2 ^ gd := by rw [pow_succ]; ring
  have hppos : 0 < (2 : Nat) ^ gd := Nat.pos_pow_of_pos _ (by norm_num)
  have hblt : b < 2 ^ gd := by
    have := keyToDirectoryIndex_lt s k
    rw [hb, hgd] at this
    exact this
  have hm_lt : b + 2 ^ gd < 2 ^ (gd + 1) := by omega
  have hD9l : ∀ j, j < 2 ^ (gd + 1) →
      D9.lds j = (if j = b ∨ j = b + 2 ^ gd then gd + 1 else s.dir.lds (j % 2 ^ gd)) :=
    fun j hj => (hD9pt j hj).1
  have hD9i : ∀ j, j < 2 ^ (gd + 1) →
      D9.ids j = (if j = b then bpid
                  else if j = b + 2 ^ gd then np else s.dir.ids (j % 2 ^ gd)) :=
    fun j hj => (hD9pt j hj).2
  have hj0lt : ∀ j : Nat, j % 2 ^ gd < 2 ^ gd := fun j => Nat.mod_lt _ hppos
  have hmem2 : ∀ j, j < 2 ^ (gd + 1) → j % 2 ^ gd = b → j = b ∨ j = b + 2 ^ gd :=
    fun j hj hjm => mem_class_two b gd j hblt hj hjm
  obtain ⟨p0, hsp⟩ := h.spine
  have hspb : spinePath s.dir b :=
    spinePath_at_deep hsp (show b < dirSize s.dir by rw [dirSize, hgd]; exact hblt)
      (by rw [hgd]; exact hL)
  have hlds_le : ∀ j0, j0 < 2 ^ gd → s.dir.lds j0 ≤ gd := by
    intro j0 hj0
    have := spinePath_lds_le hsp j0 (show j0 < dirSize s.dir by rw [dirSize, hgd]; exact hj0)
    rw [hgd] at this
    exact this
  have honly_b : ∀ j0, j0 < 2 ^ gd → s.dir.ids j0 = bpid → j0 = b := by
    intro j0 hj0 hid
    have := h.pageInj b j0 (show b < dirSize s.dir by rw [dirSize, hgd]; exact hblt)
      (show j0 < dirSize s.dir by rw [dirSize, hgd]; exact hj0)
      (by rw [hbpid2]; exact hid)
    rw [hL] at this
    rw [← Nat.mod_eq_of_lt hj0, this, Nat.mod_eq_of_lt hblt]
  have hids_lt : ∀ j0, j0 < 2 ^ gd → s.dir.ids j0 < np := by
    intro j0 hj0
    have := h.pidLt j0 (show j0 < dirSize s.dir by rw [dirSize, hgd]; exact hj0)
    rw [hnp] at this
    exact this
  have hbpid_lt : bpid < np := by
    rw [← hbpid2]
    exact hids_lt b hblt
  have hbpid_pos : 0 < bpid := by
    have := h.pidPos b (show b < dirSize s.dir by rw [dirSize, hgd]; exact hblt)
    rw [hbpid2] at this
    exact this
  obtain ⟨hmB, hmI, hnds, -⟩ := rehashPairs_spec (mkLdDir (gd + 1)) s.hashFn (b + 2 ^ gd) b
    (getKVPairs (s.pages bpid)) (bucketReset (s.pages bpid)) (emptyBucket s.bas) bktB imgB hreh
  obtain ⟨hndB, hndI⟩ := hnds
    (by rw [getKVPairs_reset]; exact List.nodup_nil)
    (by rw [getKVPairs_replicate]; exact List.nodup_nil)
  have htg : ∀ x, rehashTarget (mkLdDir (gd + 1)) s.hashFn (b + 2 ^ gd) x
      = hashOf s x % 2 ^ (gd + 1) := fun x => rehashTarget_mkLdDir (gd + 1) s.hashFn _ x
  have hmemB : ∀ k2 v2, (k2, v2) ∈ getKVPairs bktB
      ↔ ((k2, v2) ∈ getKVPairs (s.pages bpid) ∧ hashOf s k2 % 2 ^ (gd + 1) = b) := by
    intro k2 v2
    rw [hmB k2 v2, getKVPairs_reset]
    simp only [List.not_mem_nil, false_or]
    constructor
    · rintro ⟨hp, -, hbk⟩
      rw [htg] at hbk
      exact ⟨hp, hbk⟩
    · rintro ⟨hp, hh⟩
      refine ⟨hp, ?_, ?_⟩
      · rw [htg]
        intro hc
        rw [hh] at hc
        omega
      · rw [htg]
        exact hh
  have hmemI : ∀ k2 v2, (k2, v2) ∈ getKVPairs imgB
      ↔ ((k2, v2) ∈ getKVPairs (s.pages bpid) ∧ hashOf s k2 % 2 ^ (gd + 1) = b + 2 ^ gd) := by
    intro k2 v2
    rw [hmI k2 v2, getKVPairs_replicate]
    simp only [List.not_mem_nil, false_or]
    constructor
    · rintro ⟨hp, hbk⟩
      rw [htg] at hbk
      exact ⟨hp, hbk⟩
    · rintro ⟨hp, hh⟩
      refine ⟨hp, ?_⟩
      rw [htg]
      exact hh
  obtain ⟨hlenB, hlenI⟩ := rehashPairs_lengths (mkLdDir (gd + 1)) s.hashFn (b + 2 ^ gd) b
    (getKVPairs (s.pages bpid)) (bucketReset (s.pages bpid)) (emptyBucket s.bas) bktB imgB hreh
  have hsized_b : (s.pages bpid).length = s.bas := by
    have := h.sized b (show b < dirSize s.dir by rw [dirSize, hgd]; exact hblt)
    rw [hbpid2] at this
    exact this
  have hlenB2 : bktB.length = s.bas := by rw [hlenB, bucketReset_length, hsized_b]
  have hlenI2 : imgB.length = s.bas := by rw [hlenI, emptyBucket_length]
  have e_pg_np : s2.pages np = imgB := by rw [e_pages, upd_self]
  have e_pg_bpid : s2.pages bpid = bktB := by
    rw [e_pages, upd_other _ _ _ _ (by omega : bpid ≠ np), upd_self]
  have e_pg_other : ∀ q, q ≠ np → q ≠ bpid → s2.pages q = s.pages q := by
    intro q h1 h2
    rw [e_pages, upd_other _ _ _ _ h1, upd_other _ _ _ _ h2, upd_other _ _ _ _ h1]
  have hcont_b : ∀ k2 v2, (k2, v2) ∈ getKVPairs (s.pages bpid) → hashOf s k2 % 2 ^ gd = b := by
    intro k2 v2 hpr
    have := h.content b (show b < dirSize s.dir by rw [dirSize, hgd]; exact hblt) (k2, v2)
      (by rw [hbpid2]; exact hpr)
    rw [hL, Nat.mod_eq_of_lt hblt] at this
    exact this
  constructor
  · refine ⟨?_, ?_, ?_, ?_, ?_, ?_, ?_, ?_, ?_, ?_, ?_, ?_⟩
    · -- dirPid
      rw [e_dpid]
      exact h.dirPid
    · -- pins0
      intro q
      rw [e_pins]
      exact h.pins0 q
    · -- gdMD
      rw [e_dir, hD9gd]
      show gd + 1 ≤ MAX_DEPTH
      omega
    · -- spine
      refine ⟨b + 2 ^ gd, ?_⟩
      rw [e_dir]
      refine ⟨?_, ?_, ?_⟩
      · rw [dirSize, hD9gd]
        exact hm_lt
      · rw [hD9l _ hm_lt, if_pos (Or.inr rfl), hD9gd]
      · intro j hj t h1 h2
        have hjlt : j < 2 ^ (gd + 1) := by rw [dirSize, hD9gd] at hj; exact hj
        rcases Nat.lt_or_ge t gd with htlt | htge
        · have hmbt : (b + 2 ^ gd) % 2 ^ t = b % 2 ^ t := add_pow_mod_pow b gd t (by omega)
          have hmbt1 : (b + 2 ^ gd) % 2 ^ (t + 1) = b % 2 ^ (t + 1) :=
            add_pow_mod_pow b gd (t + 1) htlt
          have hjbt : j % 2 ^ t = b % 2 ^ t := by rw [h1, hmbt]
          have hjbt1 : j % 2 ^ (t + 1) ≠ b % 2 ^ (t + 1) := by rw [← hmbt1]; exact h2
          have hjne : ¬ (j = b ∨ j = b + 2 ^ gd) := by
            rintro (rfl | rfl)
            · exact hjbt1 rfl
            · exact h2 rfl
          rw [hD9l j hjlt, if_neg hjne]
          refine hspb.2.2 (j % 2 ^ gd)
            (show j % 2 ^ gd < dirSize s.dir by rw [dirSize, hgd]; exact hj0lt j) t ?_ ?_
          · rw [mod_pow_mod_pow j (by omega : t ≤ gd)]
            exact hjbt
          · rw [mod_pow_mod_pow j (by omega : t + 1 ≤ gd)]
            exact hjbt1
        · rcases Nat.lt_or_ge t (gd + 1) with htlt1 | htbig
          · have hteq : t = gd := by omega
            subst hteq
            have hmg : (b + 2 ^ t) % 2 ^ t = b := by
              rw [Nat.add_mod_right, Nat.mod_eq_of_lt hblt]
            have hjmod : j % 2 ^ t = b := by rw [h1, hmg]
            rcases hmem2 j hjlt hjmod with hc | hc
            · rw [hD9l j hjlt, if_pos (Or.inl hc)]
            · exact absurd (by rw [hc]) h2
          · exfalso
            have hj2 : j < 2 ^ t :=
              lt_of_lt_of_le hjlt (Nat.pow_le_pow_right (by norm_num) htbig)
            have hm2 : b + 2 ^ gd < 2 ^ t :=
              lt_of_lt_of_le hm_lt (Nat.pow_le_pow_right (by norm_num) htbig)
            rw [Nat.mod_eq_of_lt hj2, Nat.mod_eq_of_lt hm2] at h1
            exact h2 (by rw [h1])
    · -- classEq
      simp only [e_dir, dirSize, hD9gd]
      intro j j' hj hj' hmod
      by_cases hjbm : j = b ∨ j = b + 2 ^ gd
      · rw [hD9l j hj, if_pos hjbm, Nat.mod_eq_of_lt hj', Nat.mod_eq_of_lt hj] at hmod
        rw [hmod]
      · rw [hD9l j hj, if_neg hjbm] at hmod
        have hL0le : s.dir.lds (j % 2 ^ gd) ≤ gd := hlds_le _ (hj0lt j)
        by_cases hj'bm : j' = b ∨ j' = b + 2 ^ gd
        · exfalso
          have hbL0 : b % 2 ^ s.dir.lds (j % 2 ^ gd) = j % 2 ^ s.dir.lds (j % 2 ^ gd) := by
            rcases hj'bm with rfl | rfl
            · exact hmod
            · rw [← hmod, add_pow_mod_pow _ _ _ hL0le]
          have hcongr := spinePath_lds_congr hsp (j % 2 ^ gd) b
            (show j % 2 ^ gd < dirSize s.dir by rw [dirSize, hgd]; exact hj0lt j)
            (show b < dirSize s.dir by rw [dirSize, hgd]; exact hblt)
            (by rw [hbL0, mod_pow_mod_pow j hL0le])
          have hL0gd : s.dir.lds (j % 2 ^ gd) = gd := by rw [← hcongr, hL]
          rw [hL0gd] at hbL0
          have hjm : j % 2 ^ gd = b := by
            rw [← hbL0, Nat.mod_eq_of_lt hblt]
          exact hjbm (hmem2 j hj hjm)
        · rw [hD9i j hj, hD9i j' hj',
            if_neg (fun hc => hjbm (Or.inl hc)), if_neg (fun hc => hjbm (Or.inr hc)),
            if_neg (fun hc => hj'bm (Or.inl hc)), if_neg (fun hc => hj'bm (Or.inr hc))]
          refine h.classEq (j % 2 ^ gd) (j' % 2 ^ gd)
            (show j % 2 ^ gd < dirSize s.dir by rw [dirSize, hgd]; exact hj0lt j)
            (show j' % 2 ^ gd < dirSize s.dir by rw [dirSize, hgd]; exact hj0lt j') ?_
          rw [mod_pow_mod_pow j' hL0le, mod_pow_mod_pow j hL0le]
          exact hmod
    · -- pageInj
      simp only [e_dir, dirSize, hD9gd]
      intro j j' hj hj' hideq
      rw [hD9i j hj, hD9i j' hj'] at hideq
      by_cases hjb : j = b
      · subst hjb
        rw [if_pos rfl] at hideq
        rw [hD9l j hj, if_pos (Or.inl rfl)]
        by_cases hj'b : j' = j
        · rw [hj'b]
        · rw [if_neg hj'b] at hideq
          by_cases hj'm : j' = j + 2 ^ gd
          · rw [if_pos hj'm] at hideq
            omega
          · rw [if_neg hj'm] at hideq
            exfalso
            have := honly_b (j' % 2 ^ gd) (hj0lt j') hideq
            rcases hmem2 j' hj' this with hc | hc
            · exact hj'b hc
            · exact hj'm hc
      · by_cases hjm : j = b + 2 ^ gd
        · subst hjm
          rw [if_neg hjb, if_pos rfl] at hideq
          rw [hD9l _ hj, if_pos (Or.inr rfl)]
          by_cases hj'm : j' = b + 2 ^ gd
          · rw [hj'm]
          · exfalso
            by_cases hj'b : j' = b
            · rw [if_pos hj'b] at hideq
              omega
            · rw [if_neg hj'b, if_neg hj'm] at hideq
              exact absurd hideq (Nat.ne_of_lt (hids_lt _ (hj0lt j')))
        · rw [if_neg hjb, if_neg hjm] at hideq
          rw [hD9l j hj, if_neg (by tauto)]
          have hL0le : s.dir.lds (j % 2 ^ gd) ≤ gd := hlds_le _ (hj0lt j)
          by_cases hj'b : j' = b
          · exfalso
            rw [if_pos hj'b] at hideq
            have := honly_b (j % 2 ^ gd) (hj0lt j) hideq.symm
            rcases hmem2 j hj this with hc | hc
            · exact hjb hc
            · exact hjm hc
          · by_cases hj'm : j' = b + 2 ^ gd
            · exfalso
              rw [if_neg hj'b, if_pos hj'm] at hideq
              exact absurd hideq.symm (Nat.ne_of_lt (hids_lt _ (hj0lt j)))
            · rw [if_neg hj'b, if_neg hj'm] at hideq
              have := h.pageInj (j % 2 ^ gd) (j' % 2 ^ gd)
                (show j % 2 ^ gd < dirSize s.dir by rw [dirSize, hgd]; exact hj0lt j)
                (show j' % 2 ^ gd < dirSize s.dir by rw [dirSize, hgd]; exact hj0lt j')
                hideq
              rw [mod_pow_mod_pow j' hL0le, mod_pow_mod_pow j hL0le] at this
              exact this
    · -- pidPos
      simp only [e_dir, dirSize, hD9gd]
      intro j hj
      rw [hD9i j hj]
      by_cases hjb : j = b
      · rw [if_pos hjb]
        exact hbpid_pos
      · by_cases hjm : j = b + 2 ^ gd
        · rw [if_neg hjb, if_pos hjm]
          omega
        · rw [if_neg hjb, if_neg hjm]
          have := h.pidPos (j % 2 ^ gd)
            (show j % 2 ^ gd < dirSize s.dir by rw [dirSize, hgd]; exact hj0lt j)
          exact this
    · -- pidLt
      simp only [e_dir, dirSize, hD9gd, e_np]
      intro j hj
      rw [hD9i j hj]
      by_cases hjb : j = b
      · rw [if_pos hjb]
        omega
      · by_cases hjm : j = b + 2 ^ gd
        · rw [if_neg hjb, if_pos hjm]
          omega
        · rw [if_neg hjb, if_neg hjm]
          have := hids_lt (j % 2 ^ gd) (hj0lt j)
          omega
    · -- allocRt
      simp only [e_dir, dirSize, hD9gd, e_alloc]
      intro j hj
      rw [hD9i j hj]
      by_cases hjb : j = b
      · rw [if_pos hjb, upd_other _ _ _ _ (by omega : bpid ≠ np)]
        have := h.allocRt b (show b < dirSize s.dir by rw [dirSize, hgd]; exact hblt)
        rw [hbpid2] at this
        exact this
      · by_cases hjm : j = b + 2 ^ gd
        · rw [if_neg hjb, if_pos hjm, upd_self]
        · rw [if_neg hjb, if_neg hjm,
            upd_other _ _ _ _ (Nat.ne_of_lt (hids_lt _ (hj0lt j)))]
          exact h.allocRt (j % 2 ^ gd)
            (show j % 2 ^ gd < dirSize s.dir by rw [dirSize, hgd]; exact hj0lt j)
    · -- sized
      simp only [e_dir, dirSize, hD9gd, e_bas]
      intro j hj
      rw [hD9i j hj]
      by_cases hjb : j = b
      · rw [if_pos hjb, e_pg_bpid]
        exact hlenB2
      · by_cases hjm : j = b + 2 ^ gd
        · rw [if_neg hjb, if_pos hjm, e_pg_np]
          exact hlenI2
        · rw [if_neg hjb, if_neg hjm]
          have hne1 : s.dir.ids (j % 2 ^ gd) ≠ np := Nat.ne_of_lt (hids_lt _ (hj0lt j))
          have hne2 : s.dir.ids (j % 2 ^ gd) ≠ bpid := by
            intro hc
            have := honly_b (j % 2 ^ gd) (hj0lt j) hc
            rcases hmem2 j hj this with hc2 | hc2
            · exact hjb hc2
            · exact hjm hc2
          rw [e_pg_other _ hne1 hne2]
          exact h.sized (j % 2 ^ gd)
            (show j % 2 ^ gd < dirSize s.dir by rw [dirSize, hgd]; exact hj0lt j)
    · -- content
      simp only [e_dir, dirSize, hD9gd]
      intro j hj pr hpr
      obtain ⟨k2, v2⟩ := pr
      rw [e_hashOf]
      by_cases hjb : j = b
      · subst hjb
        rw [hD9i j hj, if_pos rfl, e_pg_bpid] at hpr
        rw [hD9l j hj, if_pos (Or.inl rfl)]
        have hm := (hmemB k2 v2).mp hpr
        rw [hm.2, Nat.mod_eq_of_lt (by omega : j < 2 ^ (gd + 1))]
      · by_cases hjm : j = b + 2 ^ gd
        · subst hjm
          rw [hD9i _ hj, if_neg hjb, if_pos rfl, e_pg_np] at hpr
          rw [hD9l _ hj, if_pos (Or.inr rfl)]
          have hm := (hmemI k2 v2).mp hpr
          rw [hm.2, Nat.mod_eq_of_lt hm_lt]
        · have hL0le : s.dir.lds (j % 2 ^ gd) ≤ gd := hlds_le _ (hj0lt j)
          have hne1 : s.dir.ids (j % 2 ^ gd) ≠ np := Nat.ne_of_lt (hids_lt _ (hj0lt j))
          have hne2 : s.dir.ids (j % 2 ^ gd) ≠ bpid := by
            intro hc
            have := honly_b (j % 2 ^ gd) (hj0lt j) hc
            rcases hmem2 j hj this with hc2 | hc2
            · exact hjb hc2
            · exact hjm hc2
          rw [hD9i j hj, if_neg hjb, if_neg hjm, e_pg_other _ hne1 hne2] at hpr
          rw [hD9l j hj, if_neg (by tauto)]
          have := h.content (j % 2 ^ gd)
            (show j % 2 ^ gd < dirSize s.dir by rw [dirSize, hgd]; exact hj0lt j)
            (k2, v2) hpr
          rw [this, mod_pow_mod_pow j hL0le]
    · -- hasNodup
      simp only [e_dir, dirSize, hD9gd]
      intro j hj
      rw [hD9i j hj]
      by_cases hjb : j = b
      · rw [if_pos hjb, e_pg_bpid]
        exact hndB
      · by_cases hjm : j = b + 2 ^ gd
        · rw [if_neg hjb, if_pos hjm, e_pg_np]
          exact hndI
        · have hne1 : s.dir.ids (j % 2 ^ gd) ≠ np := Nat.ne_of_lt (hids_lt _ (hj0lt j))
          have hne2 : s.dir.ids (j % 2 ^ gd) ≠ bpid := by
            intro hc
            have := honly_b (j % 2 ^ gd) (hj0lt j) hc
            rcases hmem2 j hj this with hc2 | hc2
            · exact hjb hc2
            · exact hjm hc2
          rw [if_neg hjb, if_neg hjm, e_pg_other _ hne1 hne2]
          exact h.hasNodup (j % 2 ^ gd)
            (show j % 2 ^ gd < dirSize s.dir by rw [dirSize, hgd]; exact hj0lt j)
  · -- tableHas unchanged
    intro k2 v2
    have hi2 : keyToDirectoryIndex s2 k2 = hashOf s k2 % 2 ^ (gd + 1) := by
      rw [keyToDirectoryIndex_eq_mod, e_dir, hD9gd, e_hashOf]
    have hi1 : keyToDirectoryIndex s k2 = hashOf s k2 % 2 ^ gd := by
      rw [keyToDirectoryIndex_eq_mod, hgd]
    rw [tableHas, tableHas, keyToPageId, keyToPageId, hi2, hi1, e_dir]
    have hilt : hashOf s k2 % 2 ^ (gd + 1) < 2 ^ (gd + 1) :=
      Nat.mod_lt _ (Nat.pos_pow_of_pos _ (by norm_num))
    have hired : hashOf s k2 % 2 ^ (gd + 1) % 2 ^ gd = hashOf s k2 % 2 ^ gd :=
      mod_pow_mod_pow _ (by omega)
    rw [hD9i _ hilt]
    by_cases hib : hashOf s k2 % 2 ^ (gd + 1) = b
    · rw [if_pos hib, e_pg_bpid]
      have hig : hashOf s k2 % 2 ^ gd = b := by
        rw [← hired, hib, Nat.mod_eq_of_lt hblt]
      rw [hig, hbpid2]
      exact hasPair_congr _ _ _ _
        (by rw [hmemB k2 v2]; exact ⟨And.left, fun hx => ⟨hx, hib⟩⟩)
    · by_cases him : hashOf s k2 % 2 ^ (gd + 1) = b + 2 ^ gd
      · rw [if_neg hib, if_pos him, e_pg_np]
        have hig : hashOf s k2 % 2 ^ gd = b := by
          rw [← hired, him, Nat.add_mod_right, Nat.mod_eq_of_lt hblt]
        rw [hig, hbpid2]
        exact hasPair_congr _ _ _ _
          (by rw [hmemI k2 v2]; exact ⟨And.left, fun hx => ⟨hx, him⟩⟩)
      · rw [if_neg hib, if_neg him, hired]
        have hib0 : hashOf s k2 % 2 ^ gd ≠ b := by
          intro hc
          rcases hmem2 _ hilt (by rw [hired]; exact hc) with hcc | hcc
          · exact hib hcc
          · exact him hcc
        rw [e_pg_other _ (Nat.ne_of_lt (hids_lt _ (hj0lt (hashOf s k2))))
          (fun hc => hib0 (honly_b _ (hj0lt (hashOf s k2)) hc))]

end Bustub
